import Mathlib

/-!
# A verification development for the gholt/valuestore storage engine

This file gives a shallow embedding, in Lean 4, of the sequential core of
the `gholt/valuestore` repository: the in-memory location map
(`valuelocmap/valuelocmap.go`), the value-store write pipeline and public
API (`valuestore_GEN_.go`), the value-file trailer writer and the
direct-file trailer verifier (`valuestorefile` code and
`valuedirectfile_GEN_.go`), the block registry (`addLocBlock`), and the
incoming pull-replication responder of the group variant
(`grouppullreplication_GEN_.go`).

All machine integers of the Go source are modelled as `Nat` (with explicit
`% 2 ^ 64` at the one place where unsigned wrap-around matters), values as
`List Nat` of bytes, and fallible operations return an error component.
The embedding is of the quiescent, sequential behaviour of the code: no
resize of the location map is in progress (so the map is a single bucket
chain, the `f(a, nil)` path of `Get`/`Set`), and the current mem block has
capacity for each request (no hand-off to the file writer mid-claim).
-/

set_option autoImplicit false

namespace ValueStore

/-! ## Timestamp constants (`valuestore_GEN_.go`, constants file) -/

/-- `_TSB_UTIL_BITS`: low bits of a timestamp reserved for bookkeeping. -/
def TSB_UTIL_BITS : Nat := 8

/-- `_TSB_DELETION = 0x80`: the entry is a tombstone. -/
def TSB_DELETION : Nat := 0x80

/-- `_TSB_LOCAL_REMOVAL = 0x02`: the entry is queued for local removal. -/
def TSB_LOCAL_REMOVAL : Nat := 0x02

/-- `TIMESTAMPMICRO_MIN = int64(uint64(1) << 8)`. -/
def TIMESTAMPMICRO_MIN : Int := 256

/-- `TIMESTAMPMICRO_MAX = int64(uint64(math.MaxUint64) >> 8)`. -/
def TIMESTAMPMICRO_MAX : Int := (2 ^ 64 - 1) / 2 ^ 8

/-! ## The location map (`valuelocmap/valuelocmap.go`)

A quiescent map is a single bucket chain (`valuesLocStore` with one bucket
and no split/unsplit in progress), so `Get` and `Set` both reduce to the
`f(s, nil)` closures of the source with `s` the chain. A chain item with
`blockID == 0` is a free slot. -/

/-- One `valueLoc` chain item: `keyA, keyB, timestamp, blockID, offset,
length` (the `next` pointer is the list structure). -/
structure VLoc where
  keyA : Nat
  keyB : Nat
  timestamp : Nat
  blockID : Nat
  offset : Nat
  length : Nat
  deriving Repr, DecidableEq

/-- Result quadruple of `ValueLocMap.Get`. -/
structure GetRes where
  timestamp : Nat
  blockID : Nat
  offset : Nat
  length : Nat
  deriving Repr, DecidableEq

/-- `ValueLocMap.Get`, quiescent path: walk the chain and return the first
item with `blockID != 0` and matching keys; all zeroes when absent. -/
def vlGet (chain : List VLoc) (keyA keyB : Nat) : GetRes :=
  match chain with
  | [] => ⟨0, 0, 0, 0⟩
  | item :: rest =>
    if item.blockID ≠ 0 ∧ item.keyA = keyA ∧ item.keyB = keyB then
      ⟨item.timestamp, item.blockID, item.offset, item.length⟩
    else
      vlGet rest keyA keyB

/-- The `sMatch` search of `ValueLocMap.Set`: the first chain item with
`blockID != 0` and matching keys. -/
def findLive (chain : List VLoc) (keyA keyB : Nat) : Option VLoc :=
  match chain with
  | [] => none
  | item :: rest =>
    if item.blockID ≠ 0 ∧ item.keyA = keyA ∧ item.keyB = keyB then some item
    else findLive rest keyA keyB

/-- Overwrite of the first live match's fields (`sMatch.timestamp = ...`
etc. in `Set`). -/
def replaceFirstLive (chain : List VLoc) (keyA keyB ts blockID offset length : Nat) :
    List VLoc :=
  match chain with
  | [] => []
  | item :: rest =>
    if item.blockID ≠ 0 ∧ item.keyA = keyA ∧ item.keyB = keyB then
      ⟨keyA, keyB, ts, blockID, offset, length⟩ :: rest
    else item :: replaceFirstLive rest keyA keyB ts blockID offset length

/-- Replace the first free slot (`blockID == 0`) with the given record. -/
def replaceFirstDead (chain : List VLoc) (item : VLoc) : List VLoc :=
  match chain with
  | [] => [item]
  | head :: rest =>
    if head.blockID = 0 then item :: rest
    else head :: replaceFirstDead rest item

/-- The no-match branch of `Set`: store into the first free slot
(`unusedItem`); when the chain has no free slot, link a new item right
after the bucket head (`unusedItem = &valueLoc{next: s.buckets[bix].next}`).
The `[]` case cannot arise in Go (the bucket head is an inline array
element). -/
def fillFirstDead (chain : List VLoc) (item : VLoc) : List VLoc :=
  if chain.any fun l => l.blockID = 0 then replaceFirstDead chain item
  else
    match chain with
    | [] => [item]
    | head :: rest => head :: item :: rest

/-- The overwrite condition of `Set`:
`timestamp > old || (evenIfSameTimestamp && timestamp == old)`. -/
def setWins (ts old : Nat) (evenIfSameTimestamp : Bool) : Bool :=
  decide (ts > old) || (evenIfSameTimestamp && decide (ts = old))

/-- `ValueLocMap.Set`, quiescent path (`f(s, nil)`, no fallback store):
returns `(oldTimestamp, new chain)`. When a live match exists, its fields
are overwritten exactly when `setWins`; when no live match exists, the
record is stored unconditionally into the first free slot (or a fresh item
linked after the head). -/
def vlSet (chain : List VLoc) (keyA keyB ts blockID offset length : Nat)
    (evenIfSameTimestamp : Bool) : Nat × List VLoc :=
  match findLive chain keyA keyB with
  | some sMatch =>
    (sMatch.timestamp,
      if setWins ts sMatch.timestamp evenIfSameTimestamp then
        replaceFirstLive chain keyA keyB ts blockID offset length
      else chain)
  | none =>
    (0, fillFirstDead chain ⟨keyA, keyB, ts, blockID, offset, length⟩)

/-- Bucket invariant: at most one live item per key pair. -/
def wfChain (chain : List VLoc) : Prop :=
  chain.Pairwise fun a b =>
    a.blockID ≠ 0 → b.blockID ≠ 0 → ¬(a.keyA = b.keyA ∧ a.keyB = b.keyB)

instance (chain : List VLoc) : Decidable (wfChain chain) := by
  unfold wfChain; infer_instance

/-! ### Lemmas relating `vlGet`, `findLive`, `replaceFirstLive`,
`fillFirstDead` -/

theorem vlGet_cons_pos (h : VLoc) (r : List VLoc) (kA kB : Nat)
    (hc : h.blockID ≠ 0 ∧ h.keyA = kA ∧ h.keyB = kB) :
    vlGet (h :: r) kA kB = ⟨h.timestamp, h.blockID, h.offset, h.length⟩ := by
  simp only [vlGet]; rw [if_pos hc]

theorem vlGet_cons_neg (h : VLoc) (r : List VLoc) (kA kB : Nat)
    (hc : ¬(h.blockID ≠ 0 ∧ h.keyA = kA ∧ h.keyB = kB)) :
    vlGet (h :: r) kA kB = vlGet r kA kB := by
  simp only [vlGet]; rw [if_neg hc]

theorem vlGet_eq_findLive (chain : List VLoc) (kA kB : Nat) :
    vlGet chain kA kB =
      match findLive chain kA kB with
      | some l => ⟨l.timestamp, l.blockID, l.offset, l.length⟩
      | none => ⟨0, 0, 0, 0⟩ := by
  induction chain with
  | nil => rfl
  | cons h r ih =>
    by_cases hc : h.blockID ≠ 0 ∧ h.keyA = kA ∧ h.keyB = kB
    · simp [vlGet, findLive, hc]
    · simpa [vlGet, findLive, hc] using ih

theorem findLive_none_of_noMatch (chain : List VLoc) (kA kB : Nat)
    (h : ∀ b ∈ chain, b.blockID ≠ 0 → ¬(b.keyA = kA ∧ b.keyB = kB)) :
    findLive chain kA kB = none := by
  induction chain with
  | nil => rfl
  | cons hd r ih =>
    have hhd := h hd (by simp)
    have hc : ¬(hd.blockID ≠ 0 ∧ hd.keyA = kA ∧ hd.keyB = kB) := by
      rintro ⟨h1, h2, h3⟩; exact hhd h1 ⟨h2, h3⟩
    simp only [findLive, if_neg hc]
    exact ih fun b hb => h b (by simp [hb])

theorem vlGet_replaceFirstLive_live (chain : List VLoc) (kA kB ts bid off len : Nat)
    (hbid : bid ≠ 0) (l : VLoc) (hfind : findLive chain kA kB = some l) :
    vlGet (replaceFirstLive chain kA kB ts bid off len) kA kB = ⟨ts, bid, off, len⟩ := by
  induction chain with
  | nil => simp [findLive] at hfind
  | cons h r ih =>
    by_cases hc : h.blockID ≠ 0 ∧ h.keyA = kA ∧ h.keyB = kB
    · simp [replaceFirstLive, hc, vlGet, hbid]
    · simp only [findLive, if_neg hc] at hfind
      simp [replaceFirstLive, hc, vlGet, ih hfind]

theorem vlGet_replaceFirstLive_dead (chain : List VLoc) (kA kB ts off len : Nat)
    (hwf : wfChain chain) (l : VLoc) (hfind : findLive chain kA kB = some l) :
    vlGet (replaceFirstLive chain kA kB ts 0 off len) kA kB = ⟨0, 0, 0, 0⟩ := by
  induction chain with
  | nil => simp [findLive] at hfind
  | cons h r ih =>
    rw [wfChain, List.pairwise_cons] at hwf
    by_cases hc : h.blockID ≠ 0 ∧ h.keyA = kA ∧ h.keyB = kB
    · have hnone : findLive r kA kB = none := by
        refine findLive_none_of_noMatch r kA kB fun b hb hbbid => ?_
        rintro ⟨h2, h3⟩
        exact hwf.1 b hb hc.1 hbbid ⟨hc.2.1.trans h2.symm, hc.2.2.trans h3.symm⟩
      have := vlGet_eq_findLive r kA kB
      rw [hnone] at this
      simp [replaceFirstLive, hc, vlGet, this]
    · simp only [findLive, if_neg hc] at hfind
      simp [replaceFirstLive, hc, vlGet, ih hwf.2 hfind]

theorem vlGet_replaceFirstDead (chain : List VLoc) (kA kB ts bid off len : Nat)
    (hnone : findLive chain kA kB = none) :
    vlGet (replaceFirstDead chain ⟨kA, kB, ts, bid, off, len⟩) kA kB =
      if bid ≠ 0 then ⟨ts, bid, off, len⟩ else ⟨0, 0, 0, 0⟩ := by
  induction chain with
  | nil =>
    by_cases hbid : bid ≠ 0 <;> simp [replaceFirstDead, vlGet, hbid]
  | cons h r ih =>
    by_cases hc : h.blockID ≠ 0 ∧ h.keyA = kA ∧ h.keyB = kB
    · simp only [findLive, if_pos hc] at hnone; cases hnone
    · simp only [findLive, if_neg hc] at hnone
      by_cases hdead : h.blockID = 0
      · by_cases hbid : bid ≠ 0
        · simp [replaceFirstDead, hdead, vlGet, hbid]
        · have := vlGet_eq_findLive r kA kB
          rw [hnone] at this
          simp [replaceFirstDead, hdead, vlGet, hbid, this]
      · have hrw : replaceFirstDead (h :: r) ⟨kA, kB, ts, bid, off, len⟩ =
            h :: replaceFirstDead r ⟨kA, kB, ts, bid, off, len⟩ := by
          simp [replaceFirstDead, hdead]
        rw [hrw, vlGet_cons_neg h _ kA kB hc]
        exact ih hnone

theorem vlGet_fillFirstDead (chain : List VLoc) (kA kB ts bid off len : Nat)
    (hnone : findLive chain kA kB = none) :
    vlGet (fillFirstDead chain ⟨kA, kB, ts, bid, off, len⟩) kA kB =
      if bid ≠ 0 then ⟨ts, bid, off, len⟩ else ⟨0, 0, 0, 0⟩ := by
  unfold fillFirstDead
  by_cases hany : chain.any fun l => l.blockID = 0
  · rw [if_pos hany]; exact vlGet_replaceFirstDead chain kA kB ts bid off len hnone
  · rw [if_neg hany]
    match chain, hnone with
    | [], _ => by_cases hbid : bid ≠ 0 <;> simp [vlGet, hbid]
    | h :: r, hnone =>
      by_cases hc : h.blockID ≠ 0 ∧ h.keyA = kA ∧ h.keyB = kB
      · simp only [findLive, if_pos hc] at hnone; cases hnone
      · simp only [findLive, if_neg hc] at hnone
        have hr := vlGet_eq_findLive r kA kB
        rw [hnone] at hr
        rw [vlGet_cons_neg h _ kA kB hc]
        by_cases hbid : bid ≠ 0
        · rw [if_pos hbid, vlGet_cons_pos ⟨kA, kB, ts, bid, off, len⟩ r kA kB ⟨hbid, rfl, rfl⟩]
        · rw [if_neg hbid]
          push_neg at hbid
          rw [vlGet_cons_neg ⟨kA, kB, ts, bid, off, len⟩ r kA kB (by simp [hbid])]
          exact hr

/-- C1 (amended): `Set` always returns the prior stored timestamp (0 when
the key is absent).  When `ts > prior`, or `evenIfSameTimestamp` and
`ts = prior`, or the key is absent, the stored location becomes the new
record (a record with `blockID = 0` leaves the key absent to `Get`);
when a live entry exists and the condition fails, the chain is unchanged.
From `ValueLocMap.Set` in `valuelocmap/valuelocmap.go`. -/
theorem locmap_set_semantics (chain : List VLoc) (hwf : wfChain chain)
    (kA kB ts bid off len : Nat) (even : Bool) :
    (vlSet chain kA kB ts bid off len even).1 = (vlGet chain kA kB).timestamp ∧
    ((setWins ts (vlGet chain kA kB).timestamp even = true ∨
        (vlGet chain kA kB).blockID = 0) →
      vlGet (vlSet chain kA kB ts bid off len even).2 kA kB =
        if bid ≠ 0 then ⟨ts, bid, off, len⟩ else ⟨0, 0, 0, 0⟩) ∧
    (setWins ts (vlGet chain kA kB).timestamp even = false →
      (vlGet chain kA kB).blockID ≠ 0 →
      (vlSet chain kA kB ts bid off len even).2 = chain) := by
  have hget := vlGet_eq_findLive chain kA kB
  match hfind : findLive chain kA kB with
  | some l =>
    rw [hfind] at hget
    have hlbid : l.blockID ≠ 0 := by
      have : ∀ (c : List VLoc), findLive c kA kB = some l → l.blockID ≠ 0 := by
        intro c
        induction c with
        | nil => intro h; cases h
        | cons h r ih =>
          by_cases hc : h.blockID ≠ 0 ∧ h.keyA = kA ∧ h.keyB = kB
          · simp only [findLive, if_pos hc]
            intro he; cases he; exact hc.1
          · simp only [findLive, if_neg hc]; exact ih
      exact this chain hfind
    refine ⟨?_, ?_, ?_⟩
    · simp [vlSet, hfind, hget]
    · intro hwin
      rw [hget] at hwin
      rcases hwin with hwin | habs
      · simp only [vlSet, hfind, hwin, if_pos rfl, if_true]
        by_cases hbid : bid ≠ 0
        · rw [if_pos hbid]
          exact vlGet_replaceFirstLive_live chain kA kB ts bid off len hbid l hfind
        · rw [if_neg hbid]
          push_neg at hbid
          subst hbid
          exact vlGet_replaceFirstLive_dead chain kA kB ts off len hwf l hfind
      · exact absurd habs hlbid
    · intro hlose _
      rw [hget] at hlose
      simp [vlSet, hfind, hlose]
  | none =>
    rw [hfind] at hget
    refine ⟨?_, ?_, ?_⟩
    · simp [vlSet, hfind, hget]
    · intro _
      simp only [vlSet, hfind]
      exact vlGet_fillFirstDead chain kA kB ts bid off len hfind
    · intro _ hbid
      rw [hget] at hbid
      simp at hbid

/-- Witness for `locmap_set_semantics` at a fresh one-slot bucket with
`kA = 1, kB = 2, ts = 5, blockID = 7, offset = 3, length = 4`. -/
theorem locmap_set_semantics_witness :
    wfChain [⟨0, 0, 0, 0, 0, 0⟩] ∧
    ((vlSet [⟨0, 0, 0, 0, 0, 0⟩] 1 2 5 7 3 4 false).1 =
        (vlGet [⟨0, 0, 0, 0, 0, 0⟩] 1 2).timestamp ∧
      ((setWins 5 (vlGet [⟨0, 0, 0, 0, 0, 0⟩] 1 2).timestamp false = true ∨
          (vlGet [⟨0, 0, 0, 0, 0, 0⟩] 1 2).blockID = 0) →
        vlGet (vlSet [⟨0, 0, 0, 0, 0, 0⟩] 1 2 5 7 3 4 false).2 1 2 =
          if 7 ≠ 0 then ⟨5, 7, 3, 4⟩ else ⟨0, 0, 0, 0⟩) ∧
      (setWins 5 (vlGet [⟨0, 0, 0, 0, 0, 0⟩] 1 2).timestamp false = false →
        (vlGet [⟨0, 0, 0, 0, 0, 0⟩] 1 2).blockID ≠ 0 →
        (vlSet [⟨0, 0, 0, 0, 0, 0⟩] 1 2 5 7 3 4 false).2 = [⟨0, 0, 0, 0, 0, 0⟩])) :=
  ⟨by decide, locmap_set_semantics [⟨0, 0, 0, 0, 0, 0⟩] (by decide) 1 2 5 7 3 4 false⟩

/-- C1 counterexample to the claim as stated: on an absent key, a `Set`
with `ts = 0` and `evenIfSameTimestamp = false` does not satisfy the
overwrite condition (`0 > 0` is false), yet the stored location changes:
the record is inserted unconditionally. -/
theorem locmap_set_claim_counterexample :
    setWins 0 (vlGet [⟨0, 0, 0, 0, 0, 0⟩] 1 2).timestamp false = false ∧
    (vlSet [⟨0, 0, 0, 0, 0, 0⟩] 1 2 0 3 4 5 false).1 = 0 ∧
    vlGet (vlSet [⟨0, 0, 0, 0, 0, 0⟩] 1 2 0 3 4 5 false).2 1 2 ≠
      vlGet [⟨0, 0, 0, 0, 0, 0⟩] 1 2 := by decide

/-! ## The sequential value store (`valuestore_GEN_.go`)

The store is modelled in its quiescent single-shard form: one memWriter
with one current mem block (never handed to the file writer, so offsets
only grow), and the location map as a single bucket chain. `memBlock.toc`
is a byte list (big-endian encoded entries, as in the source), and the
invariants `toc.length = tocOff` and `memValues.length = memOff` of the
running code are hypotheses of the theorems that need them. -/

/-- Error kinds returned by the store operations, modelling the distinct
`error` values of the source (`ErrNotFound`, `ErrDisabled`, the
`fmt.Errorf` timestamp/value-length errors). -/
inductive SErr where
  | notFound
  | disabled
  | valueTooLarge
  | tsTooSmall
  | tsTooLarge
  deriving Repr, DecidableEq

/-- Store configuration (the fields of `DefaultValueStore` the modelled
operations read). -/
structure StoreCfg where
  valueCap : Nat
  minValueAlloc : Nat
  deriving Repr, DecidableEq

/-- Sequential store state: the write-enabled flag of the memWriter, the
location-map chain, and the current mem block (`id`, `toc`, `values`)
with the memWriter's `memBlockTOCOffset` / `memBlockMemOffset` cursors. -/
structure Store where
  cfg : StoreCfg
  enabled : Bool
  locs : List VLoc
  memId : Nat
  toc : List Nat
  tocOff : Nat
  memValues : List Nat
  memOff : Nat
  deriving Repr, DecidableEq

/-- A store as `NewValueStore` leaves it: writes enabled, an empty
one-slot bucket, the first mem block (id 1) empty. -/
def initStore (cfg : StoreCfg) : Store :=
  { cfg := cfg, enabled := true, locs := [⟨0, 0, 0, 0, 0, 0⟩], memId := 1,
    toc := [], tocOff := 0, memValues := [], memOff := 0 }

/-- Big-endian byte encoding of a 32-bit value (`binary.BigEndian.PutUint32`). -/
def u32be (n : Nat) : List Nat :=
  [n / 2 ^ 24 % 256, n / 2 ^ 16 % 256, n / 2 ^ 8 % 256, n % 256]

/-- Big-endian byte encoding of a 64-bit value (`binary.BigEndian.PutUint64`). -/
def u64be (n : Nat) : List Nat :=
  [n / 2 ^ 56 % 256, n / 2 ^ 48 % 256, n / 2 ^ 40 % 256, n / 2 ^ 32 % 256,
    n / 2 ^ 24 % 256, n / 2 ^ 16 % 256, n / 2 ^ 8 % 256, n % 256]

/-- One TOC entry as the memWriter lays it out in `memBlock.toc`:
`keyA:8, keyB:8, timestampbits:8, offset:4, length:4` (32 bytes,
`_VALUE_FILE_ENTRY_SIZE`). -/
def tocEntryBytes (keyA keyB tsb offset length : Nat) : List Nat :=
  u64be keyA ++ u64be keyB ++ u64be tsb ++ u32be offset ++ u32be length

/-- `_VALUE_FILE_ENTRY_SIZE = 32`. -/
def VALUE_FILE_ENTRY_SIZE : Nat := 32

/-- Result of a store write: the timestampbits handed back through
`writeReq.timestampbits`, the error, and the post state. -/
structure WRes where
  tsb : Nat
  err : Option SErr
  store : Store
  deriving Repr, DecidableEq

/-- The memWriter body for one write request
(`DefaultValueStore.memWriter` after block acquisition, plus
`DefaultValueStore.write`): reject non-internal requests while disabled,
reject over-cap values, copy the value (zero-padded to
`alloc = max length minValueAlloc`) into the mem block at `memOff`, call
`locmap.Set(..., evenIfSameTimestamp=false)`, and on a win append a TOC
entry and advance both cursors; on a loss truncate `values` back to
`memOff`.  The returned `tsb` is `writeReq.timestampbits` — the prior
timestampbits after a `Set`, the unchanged request bits on the error
paths. -/
def swrite (s : Store) (keyA keyB tsb : Nat) (value : List Nat) (internal : Bool) :
    WRes :=
  if ¬s.enabled ∧ ¬internal then ⟨tsb, some .disabled, s⟩
  else if value.length > s.cfg.valueCap then ⟨tsb, some .valueTooLarge, s⟩
  else
    let length := value.length
    let alloc := max length s.cfg.minValueAlloc
    let vals1 := s.memValues ++ value ++ List.replicate (alloc - length) 0
    let r := vlSet s.locs keyA keyB tsb s.memId s.memOff length false
    if r.1 < tsb then
      ⟨r.1, none,
        { s with
          locs := r.2
          memValues := vals1
          toc := s.toc ++ tocEntryBytes keyA keyB tsb s.memOff length
          tocOff := s.tocOff + VALUE_FILE_ENTRY_SIZE
          memOff := s.memOff + alloc }⟩
    else
      ⟨r.1, none, { s with locs := r.2, memValues := vals1.take s.memOff }⟩

/-- Result of the public `Write`/`Delete`: reported timestampmicro and
error, plus the post state. -/
structure PubRes where
  ts : Int
  err : Option SErr
  store : Store
  deriving Repr, DecidableEq

/-- `DefaultValueStore.Write`: validate the timestampmicro range, shift in
the util bits, submit the request (`internal=false`), and report
`int64(timestampbits >> 8)`. -/
def publicWrite (s : Store) (keyA keyB : Nat) (timestampmicro : Int)
    (value : List Nat) : PubRes :=
  if timestampmicro < TIMESTAMPMICRO_MIN then ⟨0, some .tsTooSmall, s⟩
  else if timestampmicro > TIMESTAMPMICRO_MAX then ⟨0, some .tsTooLarge, s⟩
  else
    ⟨((swrite s keyA keyB (timestampmicro.toNat * 2 ^ 8) value false).tsb / 2 ^ 8 : Nat),
      (swrite s keyA keyB (timestampmicro.toNat * 2 ^ 8) value false).err,
      (swrite s keyA keyB (timestampmicro.toNat * 2 ^ 8) value false).store⟩

/-- `DefaultValueStore.Delete`: validate the range, submit
`(timestampmicro << 8) | _TSB_DELETION` with a nil value as an *internal*
write, and report `int64(timestampbits >> 8)`. -/
def publicDelete (s : Store) (keyA keyB : Nat) (timestampmicro : Int) : PubRes :=
  if timestampmicro < TIMESTAMPMICRO_MIN then ⟨0, some .tsTooSmall, s⟩
  else if timestampmicro > TIMESTAMPMICRO_MAX then ⟨0, some .tsTooLarge, s⟩
  else
    ⟨((swrite s keyA keyB (timestampmicro.toNat * 2 ^ 8 + TSB_DELETION) [] true).tsb / 2 ^ 8 : Nat),
      (swrite s keyA keyB (timestampmicro.toNat * 2 ^ 8 + TSB_DELETION) [] true).err,
      (swrite s keyA keyB (timestampmicro.toNat * 2 ^ 8 + TSB_DELETION) [] true).store⟩

/-- Result of the public `Lookup`. -/
structure LookupRes where
  ts : Int
  length : Nat
  err : Option SErr
  deriving Repr, DecidableEq

/-- Whether a timestampbits value carries a given util bit (`tsb & bit != 0`
for the one-bit masks `_TSB_DELETION` and `_TSB_LOCAL_REMOVAL`). -/
def tsbHasBit (tsb bit : Nat) : Prop := tsb / bit % 2 = 1

instance (tsb bit : Nat) : Decidable (tsbHasBit tsb bit) := by
  unfold tsbHasBit; infer_instance

/-- `DefaultValueStore.lookup` + `Lookup`: `ErrNotFound` when the index
misses (`id == 0`) or `_TSB_DELETION` is set (and then length 0);
reported timestamp is `int64(timestampbits >> 8)` in every case. -/
def publicLookup (s : Store) (keyA keyB : Nat) : LookupRes :=
  if (vlGet s.locs keyA keyB).blockID = 0 ∨
      tsbHasBit (vlGet s.locs keyA keyB).timestamp TSB_DELETION then
    ⟨((vlGet s.locs keyA keyB).timestamp / 2 ^ 8 : Nat), 0, some .notFound⟩
  else
    ⟨((vlGet s.locs keyA keyB).timestamp / 2 ^ 8 : Nat),
      (vlGet s.locs keyA keyB).length, none⟩

/-- Result of the public `Read`. -/
structure ReadRes where
  ts : Int
  value : List Nat
  err : Option SErr
  deriving Repr, DecidableEq

/-- Modelled from the spec: the mem-block `read` (the `valueMemBlock` code
generated from `memblock.got` is not under `src/`): per §3.1 the value
bytes of a mem-resident entry are `[offset, offset+length)` of the block's
`values` buffer. -/
def memBlockRead (values : List Nat) (offset length : Nat) : List Nat :=
  (values.drop offset).take length

/-- `DefaultValueStore.read` + `Read`: `ErrNotFound` when the index misses
or `_TSB_DELETION` or `_TSB_LOCAL_REMOVAL` is set; otherwise the bytes at
the stored location; reported timestamp is `int64(timestampbits >> 8)`. -/
def publicRead (s : Store) (keyA keyB : Nat) : ReadRes :=
  if (vlGet s.locs keyA keyB).blockID = 0 ∨
      tsbHasBit (vlGet s.locs keyA keyB).timestamp TSB_DELETION ∨
      tsbHasBit (vlGet s.locs keyA keyB).timestamp TSB_LOCAL_REMOVAL then
    ⟨((vlGet s.locs keyA keyB).timestamp / 2 ^ 8 : Nat), [], some .notFound⟩
  else
    ⟨((vlGet s.locs keyA keyB).timestamp / 2 ^ 8 : Nat),
      memBlockRead s.memValues (vlGet s.locs keyA keyB).offset
        (vlGet s.locs keyA keyB).length, none⟩

/-- `DefaultValueStore.DisableWrites` as seen by the memWriter: the
`disableValueWriteReq` control request clears `enabled`. -/
def disableWrites (s : Store) : Store := { s with enabled := false }

/-- `DefaultValueStore.EnableWrites` as seen by the memWriter. -/
def enableWrites (s : Store) : Store := { s with enabled := true }

/-! ### Helper lemmas about `vlSet` and `swrite` -/

theorem vlGet_of_findLive_some (chain : List VLoc) (kA kB : Nat) (l : VLoc)
    (hfind : findLive chain kA kB = some l) :
    vlGet chain kA kB = ⟨l.timestamp, l.blockID, l.offset, l.length⟩ := by
  have hget := vlGet_eq_findLive chain kA kB
  rw [hfind] at hget
  exact hget

theorem vlGet_of_findLive_none (chain : List VLoc) (kA kB : Nat)
    (hfind : findLive chain kA kB = none) :
    vlGet chain kA kB = ⟨0, 0, 0, 0⟩ := by
  have hget := vlGet_eq_findLive chain kA kB
  rw [hfind] at hget
  exact hget

theorem vlSet_fst (chain : List VLoc) (kA kB ts bid off len : Nat) (even : Bool) :
    (vlSet chain kA kB ts bid off len even).1 = (vlGet chain kA kB).timestamp := by
  match hfind : findLive chain kA kB with
  | some l => rw [vlGet_of_findLive_some chain kA kB l hfind]; simp [vlSet, hfind]
  | none => rw [vlGet_of_findLive_none chain kA kB hfind]; simp [vlSet, hfind]

theorem vlGet_vlSet_strictWin (chain : List VLoc) (kA kB ts bid off len : Nat)
    (even : Bool) (hbid : bid ≠ 0)
    (hwin : (vlGet chain kA kB).timestamp < ts) :
    vlGet (vlSet chain kA kB ts bid off len even).2 kA kB = ⟨ts, bid, off, len⟩ := by
  match hfind : findLive chain kA kB with
  | some l =>
    rw [vlGet_of_findLive_some chain kA kB l hfind] at hwin
    have hwin' : l.timestamp < ts := hwin
    have hwins : setWins ts l.timestamp even = true := by
      simp [setWins]; omega
    simp only [vlSet, hfind, hwins, if_true]
    exact vlGet_replaceFirstLive_live chain kA kB ts bid off len hbid l hfind
  | none =>
    simp only [vlSet, hfind]
    have := vlGet_fillFirstDead chain kA kB ts bid off len hfind
    rwa [if_pos hbid] at this

theorem vlSet_snd_lose (chain : List VLoc) (kA kB ts bid off len : Nat)
    (hpresent : (vlGet chain kA kB).blockID ≠ 0)
    (hlose : ¬(vlGet chain kA kB).timestamp < ts) :
    (vlSet chain kA kB ts bid off len false).2 = chain := by
  match hfind : findLive chain kA kB with
  | some l =>
    rw [vlGet_of_findLive_some chain kA kB l hfind] at hlose
    have hlose' : ¬l.timestamp < ts := hlose
    have hwins : setWins ts l.timestamp false = false := by
      simp [setWins]; omega
    simp [vlSet, hfind, hwins]
  | none =>
    rw [vlGet_of_findLive_none chain kA kB hfind] at hpresent
    simp at hpresent

theorem swrite_frame (s : Store) (keyA keyB tsb : Nat) (value : List Nat)
    (internal : Bool) :
    (swrite s keyA keyB tsb value internal).store.cfg = s.cfg ∧
    (swrite s keyA keyB tsb value internal).store.enabled = s.enabled ∧
    (swrite s keyA keyB tsb value internal).store.memId = s.memId := by
  unfold swrite
  dsimp only
  split
  · simp
  split
  · simp
  split <;> simp

/-- The accepted-write shape of `swrite`: with the gate passed, the value
within cap, and the prior timestamp strictly smaller, the write wins and
the key's index entry becomes `(tsb, memId, memOff, length)`. -/
theorem swrite_win_get (s : Store) (keyA keyB tsb : Nat) (value : List Nat)
    (internal : Bool)
    (hgate : s.enabled = true ∨ internal = true)
    (hlen : value.length ≤ s.cfg.valueCap)
    (hbid : s.memId ≠ 0)
    (hwin : (vlGet s.locs keyA keyB).timestamp < tsb) :
    (swrite s keyA keyB tsb value internal).err = none ∧
    (swrite s keyA keyB tsb value internal).tsb = (vlGet s.locs keyA keyB).timestamp ∧
    vlGet (swrite s keyA keyB tsb value internal).store.locs keyA keyB =
      ⟨tsb, s.memId, s.memOff, value.length⟩ := by
  have h1 : ¬(¬s.enabled ∧ ¬internal) := by
    rcases hgate with h | h <;> simp [h]
  have h2 : ¬value.length > s.cfg.valueCap := by omega
  have hfst := vlSet_fst s.locs keyA keyB tsb s.memId s.memOff value.length false
  have hwin' : (vlSet s.locs keyA keyB tsb s.memId s.memOff value.length false).1 < tsb := by
    rw [hfst]; exact hwin
  unfold swrite
  dsimp only
  rw [if_neg h1, if_neg h2, if_pos hwin']
  exact ⟨rfl, hfst, vlGet_vlSet_strictWin s.locs keyA keyB tsb s.memId s.memOff
    value.length false hbid hwin⟩

/-- The lost-write shape of `swrite`: with the gate passed and a prior
entry at least as new, the index chain is unchanged. -/
theorem swrite_lose_locs (s : Store) (keyA keyB tsb : Nat) (value : List Nat)
    (internal : Bool)
    (hgate : s.enabled = true ∨ internal = true)
    (hlen : value.length ≤ s.cfg.valueCap)
    (hpresent : (vlGet s.locs keyA keyB).blockID ≠ 0)
    (hlose : ¬(vlGet s.locs keyA keyB).timestamp < tsb) :
    (swrite s keyA keyB tsb value internal).err = none ∧
    (swrite s keyA keyB tsb value internal).tsb = (vlGet s.locs keyA keyB).timestamp ∧
    (swrite s keyA keyB tsb value internal).store.locs = s.locs := by
  have h1 : ¬(¬s.enabled ∧ ¬internal) := by
    rcases hgate with h | h <;> simp [h]
  have h2 : ¬value.length > s.cfg.valueCap := by omega
  have hfst := vlSet_fst s.locs keyA keyB tsb s.memId s.memOff value.length false
  have hlose' : ¬(vlSet s.locs keyA keyB tsb s.memId s.memOff value.length false).1 < tsb := by
    rw [hfst]; exact hlose
  unfold swrite
  dsimp only
  rw [if_neg h1, if_neg h2, if_neg hlose']
  exact ⟨rfl, hfst, vlSet_snd_lose s.locs keyA keyB tsb s.memId s.memOff value.length
    hpresent hlose⟩

/-- The disabled-rejection shape of `swrite`. -/
theorem swrite_disabled (s : Store) (keyA keyB tsb : Nat) (value : List Nat)
    (hdis : s.enabled = false) :
    swrite s keyA keyB tsb value false = ⟨tsb, some .disabled, s⟩ := by
  unfold swrite
  rw [if_pos (by simp [hdis])]

/-- The over-cap rejection shape of `swrite`. -/
theorem swrite_tooLarge (s : Store) (keyA keyB tsb : Nat) (value : List Nat)
    (internal : Bool) (hgate : ¬(¬s.enabled ∧ ¬internal))
    (hlen : value.length > s.cfg.valueCap) :
    swrite s keyA keyB tsb value internal = ⟨tsb, some .valueTooLarge, s⟩ := by
  unfold swrite
  rw [if_neg hgate, if_pos hlen]

/-- Error-path shape of `swrite`: on rejection the state is untouched. -/
theorem swrite_err_state (s : Store) (keyA keyB tsb : Nat) (value : List Nat)
    (internal : Bool) (e : SErr)
    (herr : (swrite s keyA keyB tsb value internal).err = some e) :
    (swrite s keyA keyB tsb value internal).store = s := by
  unfold swrite at herr ⊢
  dsimp only at herr ⊢
  split
  · rfl
  split
  · rfl
  rename_i hg1 hg2
  rw [if_neg hg1, if_neg hg2] at herr
  split <;> split at herr <;> simp_all

/-! ### Claim C2: the write/delete exact-timestamp tie rule -/

/-- The tombstone state reached once a delete with timestampbits
`(k << 8) | DELETION` has won the `Set`: a subsequent `Read` reports
`ErrNotFound` with timestampmicro `k`. -/
theorem read_of_tombstone (s : Store) (keyA keyB k bid off len : Nat)
    (hget : vlGet s.locs keyA keyB = ⟨256 * k + TSB_DELETION, bid, off, len⟩) :
    publicRead s keyA keyB = ⟨(k : Int), [], some .notFound⟩ := by
  unfold publicRead
  rw [hget]
  have hbit : tsbHasBit (256 * k + TSB_DELETION) TSB_DELETION := by
    unfold tsbHasBit TSB_DELETION
    omega
  rw [if_pos (Or.inr (Or.inl hbit))]
  have : (256 * k + TSB_DELETION) / 2 ^ 8 = k := by
    unfold TSB_DELETION
    omega
  rw [this]

/-- C2 (confirmed): for every store state in which the key's stored
timestampbits are older than `t << 8`, every value `v` and every valid
timestampmicro `t`, doing `Write(keyA, keyB, t, v)` and
`Delete(keyA, keyB, t)` in either order leaves `Read(keyA, keyB)`
returning `ErrNotFound` with reported timestampmicro `t`: the delete wins
an exact-timestamp tie.  From `DefaultValueStore.Write/Delete/read` in
`valuestore_GEN_.go` and `ValueLocMap.Set`. -/
theorem tie_rule (s : Store) (keyA keyB : Nat) (t : Int) (v : List Nat)
    (hmin : TIMESTAMPMICRO_MIN ≤ t) (hmax : t ≤ TIMESTAMPMICRO_MAX)
    (hmem : s.memId ≠ 0)
    (hprior : (vlGet s.locs keyA keyB).timestamp < t.toNat * 2 ^ 8) :
    publicRead (publicDelete (publicWrite s keyA keyB t v).store keyA keyB t).store
        keyA keyB = ⟨t, [], some .notFound⟩ ∧
    publicRead (publicWrite (publicDelete s keyA keyB t).store keyA keyB t v).store
        keyA keyB = ⟨t, [], some .notFound⟩ := by
  have hnlt : ¬t < TIMESTAMPMICRO_MIN := by omega
  have hngt : ¬t > TIMESTAMPMICRO_MAX := by omega
  have ht0 : 0 ≤ t := by unfold TIMESTAMPMICRO_MIN at hmin; omega
  have htK : ((t.toNat : Int)) = t := Int.toNat_of_nonneg ht0
  -- the delete's timestampbits, rewritten into `256 * k + DELETION` form
  have htd : t.toNat * 2 ^ 8 + TSB_DELETION = 256 * t.toNat + TSB_DELETION := by
    omega
  constructor
  · -- Write then Delete
    unfold publicWrite
    rw [if_neg hnlt, if_neg hngt]
    dsimp only
    set s1 := (swrite s keyA keyB (t.toNat * 2 ^ 8) v false).store with hs1
    have hframe := swrite_frame s keyA keyB (t.toNat * 2 ^ 8) v false
    rw [← hs1] at hframe
    have hdelwin : (vlGet s1.locs keyA keyB).timestamp <
        t.toNat * 2 ^ 8 + TSB_DELETION := by
      by_cases hen : s.enabled
      · by_cases hlen : v.length ≤ s.cfg.valueCap
        · have hw := swrite_win_get s keyA keyB (t.toNat * 2 ^ 8) v false
            (Or.inl hen) hlen hmem hprior
          rw [← hs1] at hw
          rw [hw.2.2]
          show t.toNat * 2 ^ 8 < t.toNat * 2 ^ 8 + TSB_DELETION
          unfold TSB_DELETION
          omega
        · have heq := swrite_tooLarge s keyA keyB (t.toNat * 2 ^ 8) v false
            (by simp [hen]) (by omega)
          have hseq : s1 = s := by rw [hs1, heq]
          rw [hseq]
          unfold TSB_DELETION
          omega
      · have heq := swrite_disabled s keyA keyB (t.toNat * 2 ^ 8) v
          (by simpa using hen)
        have hseq : s1 = s := by rw [hs1, heq]
        rw [hseq]
        unfold TSB_DELETION
        omega
    unfold publicDelete
    rw [if_neg hnlt, if_neg hngt]
    dsimp only
    have hd := swrite_win_get s1 keyA keyB (t.toNat * 2 ^ 8 + TSB_DELETION) [] true
      (Or.inr rfl) (by simp) (by rw [hframe.2.2]; exact hmem) hdelwin
    have hget2 : vlGet (swrite s1 keyA keyB
        (t.toNat * 2 ^ 8 + TSB_DELETION) [] true).store.locs keyA keyB =
        ⟨256 * t.toNat + TSB_DELETION, s1.memId, s1.memOff, 0⟩ := by
      rw [hd.2.2, htd]
      rfl
    have hr := read_of_tombstone
      (swrite s1 keyA keyB (t.toNat * 2 ^ 8 + TSB_DELETION) [] true).store
      keyA keyB t.toNat s1.memId s1.memOff 0 hget2
    rw [hr, htK]
  · -- Delete then Write
    unfold publicDelete
    rw [if_neg hnlt, if_neg hngt]
    dsimp only
    set s1 := (swrite s keyA keyB (t.toNat * 2 ^ 8 + TSB_DELETION) [] true).store
      with hs1
    have hframe := swrite_frame s keyA keyB (t.toNat * 2 ^ 8 + TSB_DELETION) [] true
    have hd := swrite_win_get s keyA keyB (t.toNat * 2 ^ 8 + TSB_DELETION) [] true
      (Or.inr rfl) (by simp) hmem (by unfold TSB_DELETION; omega)
    rw [← hs1] at hd hframe
    have hget1 : vlGet s1.locs keyA keyB =
        ⟨256 * t.toNat + TSB_DELETION, s.memId, s.memOff, 0⟩ := by
      rw [hd.2.2, htd]
      rfl
    unfold publicWrite
    rw [if_neg hnlt, if_neg hngt]
    dsimp only
    have hlocs2 : (swrite s1 keyA keyB (t.toNat * 2 ^ 8) v false).store.locs =
        s1.locs := by
      by_cases hen : s1.enabled
      · by_cases hlen : v.length ≤ s1.cfg.valueCap
        · have hl := swrite_lose_locs s1 keyA keyB (t.toNat * 2 ^ 8) v false
            (Or.inl hen) hlen
            (by rw [hget1]; exact hmem)
            (by rw [hget1]; show ¬256 * t.toNat + TSB_DELETION < t.toNat * 2 ^ 8
                unfold TSB_DELETION; omega)
          exact hl.2.2
        · have heq := swrite_tooLarge s1 keyA keyB (t.toNat * 2 ^ 8) v false
            (by simp [hen]) (by omega)
          rw [heq]
      · have heq := swrite_disabled s1 keyA keyB (t.toNat * 2 ^ 8) v
          (by simpa using hen)
        rw [heq]
    have hget2 : vlGet (swrite s1 keyA keyB (t.toNat * 2 ^ 8) v false).store.locs
        keyA keyB = ⟨256 * t.toNat + TSB_DELETION, s.memId, s.memOff, 0⟩ := by
      rw [hlocs2, hget1]
    have hr := read_of_tombstone
      (swrite s1 keyA keyB (t.toNat * 2 ^ 8) v false).store
      keyA keyB t.toNat s.memId s.memOff 0 hget2
    rw [hr, htK]

/-- Witness for `tie_rule` on a fresh store, key (1,2), `t = 300`,
value `[42]`. -/
theorem tie_rule_witness :
    (publicRead (publicDelete
        (publicWrite (initStore ⟨100, 0⟩) 1 2 300 [42]).store 1 2 300).store 1 2 =
      ⟨300, [], some .notFound⟩ ∧
    publicRead (publicWrite
        (publicDelete (initStore ⟨100, 0⟩) 1 2 300).store 1 2 300 [42]).store 1 2 =
      ⟨300, [], some .notFound⟩) :=
  tie_rule (initStore ⟨100, 0⟩) 1 2 300 [42] (by decide) (by decide) (by decide)
    (by decide)

/-! ### Claim C3: the NotFound taxonomy of `lookup` and `read` -/

theorem findLive_mem (chain : List VLoc) (kA kB : Nat) (l : VLoc)
    (hfind : findLive chain kA kB = some l) : l ∈ chain := by
  induction chain with
  | nil => cases hfind
  | cons h r ih =>
    by_cases hc : h.blockID ≠ 0 ∧ h.keyA = kA ∧ h.keyB = kB
    · rw [findLive, if_pos hc] at hfind
      cases hfind
      exact List.mem_cons_self _ _
    · rw [findLive, if_neg hc] at hfind
      exact List.mem_cons_of_mem _ (ih hfind)

/-- Store invariant for C3: every live index entry was stored by a write
whose wall timestamp was at least `TIMESTAMPMICRO_MIN`, so its
timestampbits are at least `1 << 8`. -/
def wfTsStore (s : Store) : Prop :=
  ∀ e ∈ s.locs, e.blockID ≠ 0 → 2 ^ 8 ≤ e.timestamp

instance (s : Store) : Decidable (wfTsStore s) := by
  unfold wfTsStore; infer_instance

/-- C3 (amended): `Read` returns `ErrNotFound` exactly when the index
misses or the stored timestamp carries `DELETION` or `LOCAL_REMOVAL`;
`Lookup` returns `ErrNotFound` exactly when the index misses or the stored
timestamp carries `DELETION` (a `LOCAL_REMOVAL`-only entry does *not* make
`Lookup` report NotFound); and for both, the reported timestampmicro is 0
iff the key was never seen (index miss), in particular nonzero for a known
key carrying a deletion marker.  From `DefaultValueStore.lookup` and
`DefaultValueStore.read` in `valuestore_GEN_.go`. -/
theorem notfound_taxonomy (s : Store) (keyA keyB : Nat) (hwf : wfTsStore s) :
    ((publicLookup s keyA keyB).err = some .notFound ↔
      ((vlGet s.locs keyA keyB).blockID = 0 ∨
        tsbHasBit (vlGet s.locs keyA keyB).timestamp TSB_DELETION)) ∧
    ((publicRead s keyA keyB).err = some .notFound ↔
      ((vlGet s.locs keyA keyB).blockID = 0 ∨
        tsbHasBit (vlGet s.locs keyA keyB).timestamp TSB_DELETION ∨
        tsbHasBit (vlGet s.locs keyA keyB).timestamp TSB_LOCAL_REMOVAL)) ∧
    ((publicLookup s keyA keyB).ts = 0 ↔ (vlGet s.locs keyA keyB).blockID = 0) ∧
    ((publicRead s keyA keyB).ts = 0 ↔ (vlGet s.locs keyA keyB).blockID = 0) := by
  have hts : (vlGet s.locs keyA keyB).blockID ≠ 0 →
      2 ^ 8 ≤ (vlGet s.locs keyA keyB).timestamp := by
    intro hbid
    match hfind : findLive s.locs keyA keyB with
    | some l =>
      rw [vlGet_of_findLive_some s.locs keyA keyB l hfind]
      have hl : l.blockID ≠ 0 := by
        rw [vlGet_of_findLive_some s.locs keyA keyB l hfind] at hbid
        exact hbid
      exact hwf l (findLive_mem s.locs keyA keyB l hfind) hl
    | none =>
      rw [vlGet_of_findLive_none s.locs keyA keyB hfind] at hbid
      simp at hbid
  have hlk : (publicLookup s keyA keyB).ts =
      (((vlGet s.locs keyA keyB).timestamp / 2 ^ 8 : Nat) : Int) := by
    unfold publicLookup
    split <;> rfl
  have hrd : (publicRead s keyA keyB).ts =
      (((vlGet s.locs keyA keyB).timestamp / 2 ^ 8 : Nat) : Int) := by
    unfold publicRead
    split <;> rfl
  have hts0 : ((((vlGet s.locs keyA keyB).timestamp / 2 ^ 8 : Nat) : Int) = 0 ↔
      (vlGet s.locs keyA keyB).blockID = 0) := by
    constructor
    · intro h0
      by_contra hbid
      have := hts hbid
      omega
    · intro hbid
      match hfind : findLive s.locs keyA keyB with
      | some l =>
        rw [vlGet_of_findLive_some s.locs keyA keyB l hfind] at hbid
        have hl : l.blockID ≠ 0 := by
          have : ∀ (c : List VLoc), findLive c keyA keyB = some l → l.blockID ≠ 0 := by
            intro c
            induction c with
            | nil => intro h; cases h
            | cons h r ih =>
              by_cases hc : h.blockID ≠ 0 ∧ h.keyA = keyA ∧ h.keyB = keyB
              · simp only [findLive, if_pos hc]
                intro he; cases he; exact hc.1
              · simp only [findLive, if_neg hc]; exact ih
          exact this s.locs hfind
        exact absurd hbid hl
      | none =>
        rw [vlGet_of_findLive_none s.locs keyA keyB hfind]
        rfl
  refine ⟨?_, ?_, ?_, ?_⟩
  · unfold publicLookup
    split
    · rename_i hcond
      simpa using hcond
    · rename_i hcond
      simp only [SErr.notFound]
      constructor
      · intro h; cases h
      · intro h; exact absurd h hcond
  · unfold publicRead
    split
    · rename_i hcond
      simpa using hcond
    · rename_i hcond
      constructor
      · intro h; cases h
      · intro h; exact absurd h hcond
  · rw [hlk]; exact hts0
  · rw [hrd]; exact hts0

/-- A concrete store holding a tombstone for key (1,2) at timestampmicro
300 (timestampbits `300 << 8 | DELETION`), reached by an accepted delete. -/
def tombStore : Store :=
  (swrite (initStore ⟨100, 0⟩) 1 2 (256 * 300 + TSB_DELETION) [] true).store

/-- Witness for `notfound_taxonomy` at `tombStore`. -/
theorem notfound_taxonomy_witness :
    (((publicLookup tombStore 1 2).err = some .notFound ↔
      ((vlGet tombStore.locs 1 2).blockID = 0 ∨
        tsbHasBit (vlGet tombStore.locs 1 2).timestamp TSB_DELETION)) ∧
    ((publicRead tombStore 1 2).err = some .notFound ↔
      ((vlGet tombStore.locs 1 2).blockID = 0 ∨
        tsbHasBit (vlGet tombStore.locs 1 2).timestamp TSB_DELETION ∨
        tsbHasBit (vlGet tombStore.locs 1 2).timestamp TSB_LOCAL_REMOVAL)) ∧
    ((publicLookup tombStore 1 2).ts = 0 ↔ (vlGet tombStore.locs 1 2).blockID = 0) ∧
    ((publicRead tombStore 1 2).ts = 0 ↔ (vlGet tombStore.locs 1 2).blockID = 0)) :=
  notfound_taxonomy tombStore 1 2 (by decide)

/-- A concrete store holding a `LOCAL_REMOVAL`-marked entry for key (1,2)
(timestampbits `600 << 8 | LOCAL_REMOVAL`), reached by an accepted internal
write — the shape the bulk-set-ack path produces. -/
def locremStore : Store :=
  (swrite (initStore ⟨100, 0⟩) 1 2 (256 * 600 + TSB_LOCAL_REMOVAL) [] true).store

/-- C3 counterexample to the claim as stated: a known entry whose
timestamp carries `LOCAL_REMOVAL` (but not `DELETION`) makes `Read` report
NotFound, yet `Lookup` succeeds — so "Lookup and Read return the NotFound
error exactly when the index lookup misses or the stored timestamp carries
the DELETION or LOCAL_REMOVAL bit" fails for `Lookup`. -/
theorem notfound_taxonomy_counterexample :
    (vlGet locremStore.locs 1 2).blockID ≠ 0 ∧
    tsbHasBit (vlGet locremStore.locs 1 2).timestamp TSB_LOCAL_REMOVAL ∧
    (publicRead locremStore 1 2).err = some .notFound ∧
    (publicLookup locremStore 1 2).err = none := by decide

/-! ### Claim C4: the end-to-end write/lookup/read scenario -/

/-- The bytes of the ASCII string `"testing"`. -/
def testingBytes : List Nat := [116, 101, 115, 116, 105, 110, 103]

/-- C4 (amended): on a fresh store, after the public
`Write(1, 2, 0x500, "testing")`, `Lookup(1, 2)` reports timestampmicro
`0x500` (the wall portion: the public API shifts the util bits in on
`Write` and back out on `Lookup`) and length 7, and `Read(1, 2)` reports
timestampmicro `0x500` and value `"testing"`.  (The figure 5 in the claim
comes from the bulk-set test, where `0x500` enters as raw timestampbits.)
From `DefaultValueStore.Write/Lookup/Read` in `valuestore_GEN_.go`. -/
theorem scenario_write_lookup_read (cfg : StoreCfg) (h7 : 7 ≤ cfg.valueCap) :
    publicLookup (publicWrite (initStore cfg) 1 2 0x500 testingBytes).store 1 2 =
      ⟨0x500, 7, none⟩ ∧
    publicRead (publicWrite (initStore cfg) 1 2 0x500 testingBytes).store 1 2 =
      ⟨0x500, testingBytes, none⟩ := by
  have hw : (publicWrite (initStore cfg) 1 2 0x500 testingBytes).store =
      { cfg := cfg, enabled := true, locs := [⟨1, 2, 0x50000, 1, 0, 7⟩], memId := 1,
        toc := tocEntryBytes 1 2 0x50000 0 7, tocOff := 32,
        memValues := testingBytes ++ List.replicate (max 7 cfg.minValueAlloc - 7) 0,
        memOff := max 7 cfg.minValueAlloc } := by
    unfold publicWrite
    rw [if_neg (by unfold TIMESTAMPMICRO_MIN; omega),
      if_neg (by unfold TIMESTAMPMICRO_MAX; omega)]
    unfold swrite initStore
    rw [if_neg (by simp), if_neg (by simp [testingBytes]; omega)]
    have hset : vlSet [⟨0, 0, 0, 0, 0, 0⟩] 1 2 ((0x500 : Int).toNat * 2 ^ 8) 1 0
        testingBytes.length false = (0, [⟨1, 2, 0x50000, 1, 0, 7⟩]) := by decide
    dsimp only
    rw [hset]
    have hc1 : ((0 : Nat), [(⟨1, 2, 0x50000, 1, 0, 7⟩ : VLoc)]).1 <
        (0x500 : Int).toNat * 2 ^ 8 := by decide
    rw [if_pos hc1]
    simp [testingBytes, VALUE_FILE_ENTRY_SIZE]
  rw [hw]
  have hg : vlGet [(⟨1, 2, 0x50000, 1, 0, 7⟩ : VLoc)] 1 2 = ⟨0x50000, 1, 0, 7⟩ := by
    decide
  constructor
  · unfold publicLookup
    dsimp only
    rw [hg]
    decide
  · unfold publicRead
    dsimp only
    rw [hg]
    have hval : ∀ (x : List Nat), memBlockRead (testingBytes ++ x) 0 7 = testingBytes :=
      fun _ => rfl
    rw [show (⟨0x50000, 1, 0, 7⟩ : GetRes).offset = 0 from rfl,
      show (⟨0x50000, 1, 0, 7⟩ : GetRes).length = 7 from rfl,
      hval (List.replicate (max 7 cfg.minValueAlloc - 7) 0)]
    decide

/-- Witness for `scenario_write_lookup_read` at the configuration
`valueCap = 4194304, minValueAlloc = 0`. -/
theorem scenario_write_lookup_read_witness :
    (publicLookup (publicWrite (initStore ⟨4194304, 0⟩) 1 2 0x500 testingBytes).store
        1 2 = ⟨0x500, 7, none⟩ ∧
      publicRead (publicWrite (initStore ⟨4194304, 0⟩) 1 2 0x500 testingBytes).store
        1 2 = ⟨0x500, testingBytes, none⟩) :=
  scenario_write_lookup_read ⟨4194304, 0⟩ (by decide)

/-- C4 counterexample to the claim as stated: after the public
`Write(1, 2, ts=0x500, "testing")`, `Lookup` reports timestampmicro
`0x500 = 1280`, not 5. -/
theorem scenario_claim_counterexample :
    (publicLookup (publicWrite (initStore ⟨4194304, 0⟩) 1 2 0x500 testingBytes).store
        1 2).ts = 0x500 ∧ (0x500 : Int) ≠ 5 := by
  constructor
  · rfl
  · decide

/-! ### Claims C5, C6, C9: memWriter frame effect, timestamp range
checking, and the write-disable gate -/

/-- Full post-state of an accepted, winning `swrite`. -/
theorem swrite_win_state (s : Store) (keyA keyB tsb : Nat) (value : List Nat)
    (internal : Bool)
    (hgate : s.enabled = true ∨ internal = true)
    (hlen : value.length ≤ s.cfg.valueCap)
    (hwin : (vlGet s.locs keyA keyB).timestamp < tsb) :
    swrite s keyA keyB tsb value internal =
      ⟨(vlGet s.locs keyA keyB).timestamp, none,
        { s with
          locs := (vlSet s.locs keyA keyB tsb s.memId s.memOff value.length false).2
          memValues := s.memValues ++ value ++
            List.replicate (max value.length s.cfg.minValueAlloc - value.length) 0
          toc := s.toc ++ tocEntryBytes keyA keyB tsb s.memOff value.length
          tocOff := s.tocOff + VALUE_FILE_ENTRY_SIZE
          memOff := s.memOff + max value.length s.cfg.minValueAlloc }⟩ := by
  have h1 : ¬(¬s.enabled ∧ ¬internal) := by
    rcases hgate with h | h <;> simp [h]
  have h2 : ¬value.length > s.cfg.valueCap := by omega
  have hfst := vlSet_fst s.locs keyA keyB tsb s.memId s.memOff value.length false
  have hwin' : (vlSet s.locs keyA keyB tsb s.memId s.memOff value.length false).1 < tsb := by
    rw [hfst]; exact hwin
  unfold swrite
  dsimp only
  rw [if_neg h1, if_neg h2, if_pos hwin', hfst]

/-- Full post-state of an accepted, losing `swrite`. -/
theorem swrite_lose_state (s : Store) (keyA keyB tsb : Nat) (value : List Nat)
    (internal : Bool)
    (hgate : s.enabled = true ∨ internal = true)
    (hlen : value.length ≤ s.cfg.valueCap)
    (hlose : ¬(vlGet s.locs keyA keyB).timestamp < tsb) :
    swrite s keyA keyB tsb value internal =
      ⟨(vlGet s.locs keyA keyB).timestamp, none,
        { s with
          locs := (vlSet s.locs keyA keyB tsb s.memId s.memOff value.length false).2
          memValues := (s.memValues ++ value ++
            List.replicate (max value.length s.cfg.minValueAlloc - value.length) 0).take
              s.memOff }⟩ := by
  have h1 : ¬(¬s.enabled ∧ ¬internal) := by
    rcases hgate with h | h <;> simp [h]
  have h2 : ¬value.length > s.cfg.valueCap := by omega
  have hfst := vlSet_fst s.locs keyA keyB tsb s.memId s.memOff value.length false
  have hlose' : ¬(vlSet s.locs keyA keyB tsb s.memId s.memOff value.length false).1 < tsb := by
    rw [hfst]; exact hlose
  unfold swrite
  dsimp only
  rw [if_neg h1, if_neg h2, if_neg hlose', hfst]

/-- C5 (confirmed): for every write request a memWriter shard accepts
(gate passed, value within cap), with the running invariant
`memValues.length = memOff`: if the index `Set`
returns a prior timestamp `≥` the request's (the write lost), the values
buffer is truncated back to the pre-write mem offset and the TOC and both
offsets are unchanged; if the prior is strictly smaller (the write won),
exactly one 32-byte TOC entry is appended and the TOC / mem offsets
advance by the entry size / the alloc size; in both cases the prior
timestamp is returned.  From `DefaultValueStore.memWriter` in
`valuestore_GEN_.go`, lines 521–595. -/
theorem memwriter_frame_effect (s : Store) (keyA keyB tsb : Nat) (value : List Nat)
    (internal : Bool)
    (hgate : s.enabled = true ∨ internal = true)
    (hlen : value.length ≤ s.cfg.valueCap)
    (hmem : s.memValues.length = s.memOff) :
    (swrite s keyA keyB tsb value internal).tsb =
      (vlGet s.locs keyA keyB).timestamp ∧
    (swrite s keyA keyB tsb value internal).err = none ∧
    ((vlGet s.locs keyA keyB).timestamp ≥ tsb →
      (swrite s keyA keyB tsb value internal).store.memValues = s.memValues ∧
      (swrite s keyA keyB tsb value internal).store.toc = s.toc ∧
      (swrite s keyA keyB tsb value internal).store.tocOff = s.tocOff ∧
      (swrite s keyA keyB tsb value internal).store.memOff = s.memOff) ∧
    ((vlGet s.locs keyA keyB).timestamp < tsb →
      (swrite s keyA keyB tsb value internal).store.toc =
        s.toc ++ tocEntryBytes keyA keyB tsb s.memOff value.length ∧
      (tocEntryBytes keyA keyB tsb s.memOff value.length).length =
        VALUE_FILE_ENTRY_SIZE ∧
      (swrite s keyA keyB tsb value internal).store.tocOff =
        s.tocOff + VALUE_FILE_ENTRY_SIZE ∧
      (swrite s keyA keyB tsb value internal).store.memOff =
        s.memOff + max value.length s.cfg.minValueAlloc) := by
  by_cases hwin : (vlGet s.locs keyA keyB).timestamp < tsb
  · rw [swrite_win_state s keyA keyB tsb value internal hgate hlen hwin]
    refine ⟨rfl, rfl, ?_, ?_⟩
    · intro hge; omega
    · intro _
      refine ⟨rfl, ?_, rfl, rfl⟩
      simp [tocEntryBytes, u64be, u32be, VALUE_FILE_ENTRY_SIZE]
  · rw [swrite_lose_state s keyA keyB tsb value internal hgate hlen hwin]
    refine ⟨rfl, rfl, ?_, ?_⟩
    · intro _
      refine ⟨?_, rfl, rfl, rfl⟩
      dsimp only
      rw [← hmem, List.append_assoc, List.take_left]
    · intro hlt; omega

/-- Witness for `memwriter_frame_effect` on a fresh store with
`valueCap = 100, minValueAlloc = 5`, request `(1, 2, 300 << 8, [9, 8, 7])`. -/
theorem memwriter_frame_effect_witness :
    ((swrite (initStore ⟨100, 5⟩) 1 2 76800 [9, 8, 7] false).tsb =
      (vlGet (initStore ⟨100, 5⟩).locs 1 2).timestamp ∧
    (swrite (initStore ⟨100, 5⟩) 1 2 76800 [9, 8, 7] false).err = none ∧
    ((vlGet (initStore ⟨100, 5⟩).locs 1 2).timestamp ≥ 76800 →
      (swrite (initStore ⟨100, 5⟩) 1 2 76800 [9, 8, 7] false).store.memValues =
        (initStore ⟨100, 5⟩).memValues ∧
      (swrite (initStore ⟨100, 5⟩) 1 2 76800 [9, 8, 7] false).store.toc =
        (initStore ⟨100, 5⟩).toc ∧
      (swrite (initStore ⟨100, 5⟩) 1 2 76800 [9, 8, 7] false).store.tocOff =
        (initStore ⟨100, 5⟩).tocOff ∧
      (swrite (initStore ⟨100, 5⟩) 1 2 76800 [9, 8, 7] false).store.memOff =
        (initStore ⟨100, 5⟩).memOff) ∧
    ((vlGet (initStore ⟨100, 5⟩).locs 1 2).timestamp < 76800 →
      (swrite (initStore ⟨100, 5⟩) 1 2 76800 [9, 8, 7] false).store.toc =
        (initStore ⟨100, 5⟩).toc ++ tocEntryBytes 1 2 76800 (initStore ⟨100, 5⟩).memOff 3 ∧
      (tocEntryBytes 1 2 76800 (initStore ⟨100, 5⟩).memOff 3).length =
        VALUE_FILE_ENTRY_SIZE ∧
      (swrite (initStore ⟨100, 5⟩) 1 2 76800 [9, 8, 7] false).store.tocOff =
        (initStore ⟨100, 5⟩).tocOff + VALUE_FILE_ENTRY_SIZE ∧
      (swrite (initStore ⟨100, 5⟩) 1 2 76800 [9, 8, 7] false).store.memOff =
        (initStore ⟨100, 5⟩).memOff + max 3 5)) :=
  memwriter_frame_effect (initStore ⟨100, 5⟩) 1 2 76800 [9, 8, 7] false
    (Or.inl rfl) (by decide) rfl

/-- Round-trip of an accepted write on a key the index has never seen:
`Read` returns the written value and timestampmicro. -/
theorem write_read_roundtrip (s : Store) (keyA keyB : Nat) (t : Int) (v : List Nat)
    (henabled : s.enabled = true) (hmem : s.memId ≠ 0)
    (hmemoff : s.memValues.length = s.memOff)
    (habsent : (vlGet s.locs keyA keyB).timestamp = 0)
    (hlen : v.length ≤ s.cfg.valueCap)
    (hmin : TIMESTAMPMICRO_MIN ≤ t) (hmax : t ≤ TIMESTAMPMICRO_MAX) :
    publicRead (publicWrite s keyA keyB t v).store keyA keyB = ⟨t, v, none⟩ := by
  have hnlt : ¬t < TIMESTAMPMICRO_MIN := by omega
  have hngt : ¬t > TIMESTAMPMICRO_MAX := by omega
  have ht0 : 0 ≤ t := by unfold TIMESTAMPMICRO_MIN at hmin; omega
  have ht256 : 256 ≤ t.toNat := by
    unfold TIMESTAMPMICRO_MIN at hmin; omega
  have hwin : (vlGet s.locs keyA keyB).timestamp < t.toNat * 2 ^ 8 := by
    rw [habsent]; omega
  unfold publicWrite
  rw [if_neg hnlt, if_neg hngt]
  dsimp only
  rw [swrite_win_state s keyA keyB (t.toNat * 2 ^ 8) v false (Or.inl henabled)
    hlen hwin]
  dsimp only
  have hget := vlGet_vlSet_strictWin s.locs keyA keyB (t.toNat * 2 ^ 8) s.memId
    s.memOff v.length false hmem hwin
  unfold publicRead
  rw [hget]
  have hnd : ¬((⟨t.toNat * 2 ^ 8, s.memId, s.memOff, v.length⟩ : GetRes).blockID = 0 ∨
      tsbHasBit (⟨t.toNat * 2 ^ 8, s.memId, s.memOff, v.length⟩ : GetRes).timestamp
        TSB_DELETION ∨
      tsbHasBit (⟨t.toNat * 2 ^ 8, s.memId, s.memOff, v.length⟩ : GetRes).timestamp
        TSB_LOCAL_REMOVAL) := by
    rintro (h | h | h)
    · exact hmem h
    · revert h; unfold tsbHasBit TSB_DELETION; dsimp only; omega
    · revert h; unfold tsbHasBit TSB_LOCAL_REMOVAL; dsimp only; omega
  rw [if_neg hnd]
  dsimp only
  have hval : memBlockRead (s.memValues ++ v ++
      List.replicate (max v.length s.cfg.minValueAlloc - v.length) 0) s.memOff
      v.length = v := by
    unfold memBlockRead
    rw [← hmemoff, List.append_assoc, List.drop_left, List.take_left]
  rw [hval]
  have hts : (t.toNat * 2 ^ 8) / 2 ^ 8 = t.toNat := by omega
  rw [hts]
  rw [Int.toNat_of_nonneg ht0]

/-- C6 (amended): for every timestampmicro outside
`[TIMESTAMPMICRO_MIN, TIMESTAMPMICRO_MAX] = [1 << 8, (2^64-1) >> 8]` — in
particular 0 — the public `Write` and `Delete` reject the request with
reported prior timestamp 0 and leave the store unchanged; timestamps at
the boundaries `1 << 8` and `(2^64-1) >> 8` persist and round-trip.  (The
upper round-trip boundary is `(2^64-1) >> 8`, not `2^64-1`, which lies
outside the accepted range.)  From `DefaultValueStore.Write/Delete` in
`valuestore_GEN_.go` and the `TIMESTAMPMICRO_MIN/MAX` constants. -/
theorem timestamp_range_checking (s : Store) (keyA keyB : Nat) (t : Int)
    (v : List Nat)
    (henabled : s.enabled = true) (hmem : s.memId ≠ 0)
    (hmemoff : s.memValues.length = s.memOff)
    (habsent : (vlGet s.locs keyA keyB).timestamp = 0)
    (hlen : v.length ≤ s.cfg.valueCap) :
    ((t < TIMESTAMPMICRO_MIN ∨ t > TIMESTAMPMICRO_MAX) →
      ((publicWrite s keyA keyB t v).ts = 0 ∧
        (publicWrite s keyA keyB t v).err ≠ none ∧
        (publicWrite s keyA keyB t v).store = s) ∧
      ((publicDelete s keyA keyB t).ts = 0 ∧
        (publicDelete s keyA keyB t).err ≠ none ∧
        (publicDelete s keyA keyB t).store = s)) ∧
    publicRead (publicWrite s keyA keyB TIMESTAMPMICRO_MIN v).store keyA keyB =
      ⟨TIMESTAMPMICRO_MIN, v, none⟩ ∧
    publicRead (publicWrite s keyA keyB TIMESTAMPMICRO_MAX v).store keyA keyB =
      ⟨TIMESTAMPMICRO_MAX, v, none⟩ := by
  refine ⟨?_, ?_, ?_⟩
  · intro hout
    constructor
    · unfold publicWrite
      rcases hout with hsmall | hlarge
      · rw [if_pos hsmall]
        exact ⟨rfl, by simp, rfl⟩
      · rw [if_neg (by unfold TIMESTAMPMICRO_MAX at hlarge; unfold TIMESTAMPMICRO_MIN; omega),
          if_pos hlarge]
        exact ⟨rfl, by simp, rfl⟩
    · unfold publicDelete
      rcases hout with hsmall | hlarge
      · rw [if_pos hsmall]
        exact ⟨rfl, by simp, rfl⟩
      · rw [if_neg (by unfold TIMESTAMPMICRO_MAX at hlarge; unfold TIMESTAMPMICRO_MIN; omega),
          if_pos hlarge]
        exact ⟨rfl, by simp, rfl⟩
  · exact write_read_roundtrip s keyA keyB TIMESTAMPMICRO_MIN v henabled hmem
      hmemoff habsent hlen le_rfl (by unfold TIMESTAMPMICRO_MIN TIMESTAMPMICRO_MAX; omega)
  · exact write_read_roundtrip s keyA keyB TIMESTAMPMICRO_MAX v henabled hmem
      hmemoff habsent hlen (by unfold TIMESTAMPMICRO_MIN TIMESTAMPMICRO_MAX; omega) le_rfl

/-- Witness for `timestamp_range_checking` on a fresh store with
`valueCap = 100, minValueAlloc = 0`, key (1,2), `t = 0`, value `[42]`. -/
theorem timestamp_range_checking_witness :
    (((0 : Int) < TIMESTAMPMICRO_MIN ∨ (0 : Int) > TIMESTAMPMICRO_MAX) →
      ((publicWrite (initStore ⟨100, 0⟩) 1 2 0 [42]).ts = 0 ∧
        (publicWrite (initStore ⟨100, 0⟩) 1 2 0 [42]).err ≠ none ∧
        (publicWrite (initStore ⟨100, 0⟩) 1 2 0 [42]).store = initStore ⟨100, 0⟩) ∧
      ((publicDelete (initStore ⟨100, 0⟩) 1 2 0).ts = 0 ∧
        (publicDelete (initStore ⟨100, 0⟩) 1 2 0).err ≠ none ∧
        (publicDelete (initStore ⟨100, 0⟩) 1 2 0).store = initStore ⟨100, 0⟩)) ∧
    publicRead (publicWrite (initStore ⟨100, 0⟩) 1 2 TIMESTAMPMICRO_MIN [42]).store
      1 2 = ⟨TIMESTAMPMICRO_MIN, [42], none⟩ ∧
    publicRead (publicWrite (initStore ⟨100, 0⟩) 1 2 TIMESTAMPMICRO_MAX [42]).store
      1 2 = ⟨TIMESTAMPMICRO_MAX, [42], none⟩ :=
  timestamp_range_checking (initStore ⟨100, 0⟩) 1 2 0 [42] rfl (by decide) rfl
    (by decide) (by decide)

/-- C6 counterexample to the claim as stated: the claim's second stated
boundary `2^64 - 1` does *not* persist — a public `Write` at
timestampmicro `2^64 - 1` is rejected (`2^64 - 1 > TIMESTAMPMICRO_MAX`)
and leaves the store unchanged, so no round-trip occurs. -/
theorem timestamp_range_claim_counterexample :
    (publicWrite (initStore ⟨100, 0⟩) 1 2 (2 ^ 64 - 1) [42]).err ≠ none ∧
    (publicWrite (initStore ⟨100, 0⟩) 1 2 (2 ^ 64 - 1) [42]).store =
      initStore ⟨100, 0⟩ ∧
    (publicRead (publicWrite (initStore ⟨100, 0⟩) 1 2 (2 ^ 64 - 1) [42]).store
      1 2).err = some .notFound := by
  unfold publicWrite
  rw [if_neg (by unfold TIMESTAMPMICRO_MIN; omega),
    if_pos (by unfold TIMESTAMPMICRO_MAX; omega)]
  exact ⟨by simp, rfl, by decide⟩

/-- C9 (confirmed): while writes are disabled, a public `Write` with a
valid timestamp returns `ErrDisabled` and changes nothing, but a public
`Delete` with a valid timestamp is still processed — `Delete` always
submits its request with `internal=true` and the disabled memWriter
rejects only non-internal requests — returning the prior timestamp and,
whenever its timestampbits win the ordering rule, recording the tombstone
(after which `Read` reports NotFound).  From `DefaultValueStore.Delete`
and `DefaultValueStore.memWriter` in `valuestore_GEN_.go`. -/
theorem delete_bypasses_disable (s : Store) (keyA keyB : Nat) (t : Int)
    (v : List Nat)
    (hdis : s.enabled = false)
    (hmin : TIMESTAMPMICRO_MIN ≤ t) (hmax : t ≤ TIMESTAMPMICRO_MAX)
    (hmem : s.memId ≠ 0) :
    publicWrite s keyA keyB t v = ⟨t, some .disabled, s⟩ ∧
    (publicDelete s keyA keyB t).err = none ∧
    (publicDelete s keyA keyB t).ts =
      (((vlGet s.locs keyA keyB).timestamp / 2 ^ 8 : Nat) : Int) ∧
    ((vlGet s.locs keyA keyB).timestamp < t.toNat * 2 ^ 8 + TSB_DELETION →
      vlGet (publicDelete s keyA keyB t).store.locs keyA keyB =
        ⟨t.toNat * 2 ^ 8 + TSB_DELETION, s.memId, s.memOff, 0⟩ ∧
      (publicRead (publicDelete s keyA keyB t).store keyA keyB).err =
        some .notFound) := by
  have hnlt : ¬t < TIMESTAMPMICRO_MIN := by omega
  have hngt : ¬t > TIMESTAMPMICRO_MAX := by omega
  have ht0 : 0 ≤ t := by unfold TIMESTAMPMICRO_MIN at hmin; omega
  refine ⟨?_, ?_, ?_, ?_⟩
  · unfold publicWrite
    rw [if_neg hnlt, if_neg hngt]
    rw [swrite_disabled s keyA keyB (t.toNat * 2 ^ 8) v hdis]
    have hts : (t.toNat * 2 ^ 8) / 2 ^ 8 = t.toNat := by omega
    dsimp only
    rw [hts, Int.toNat_of_nonneg ht0]
  · unfold publicDelete
    rw [if_neg hnlt, if_neg hngt]
    dsimp only
    unfold swrite
    dsimp only
    rw [if_neg (by simp), if_neg (by simp)]
    split <;> rfl
  · unfold publicDelete
    rw [if_neg hnlt, if_neg hngt]
    dsimp only
    unfold swrite
    dsimp only
    rw [if_neg (by simp), if_neg (by simp)]
    have hfst := vlSet_fst s.locs keyA keyB (t.toNat * 2 ^ 8 + TSB_DELETION)
      s.memId s.memOff (([] : List Nat)).length false
    split <;> dsimp only <;> rw [hfst]
  · intro hwin
    unfold publicDelete
    rw [if_neg hnlt, if_neg hngt]
    dsimp only
    have hd := swrite_win_state s keyA keyB (t.toNat * 2 ^ 8 + TSB_DELETION) [] true
      (Or.inr rfl) (by simp) hwin
    rw [hd]
    dsimp only
    have hget := vlGet_vlSet_strictWin s.locs keyA keyB
      (t.toNat * 2 ^ 8 + TSB_DELETION) s.memId s.memOff (([] : List Nat)).length false
      hmem hwin
    refine ⟨hget, ?_⟩
    unfold publicRead
    rw [hget]
    have hbit : tsbHasBit
        (⟨t.toNat * 2 ^ 8 + TSB_DELETION, s.memId, s.memOff, (([] : List Nat)).length⟩ :
          GetRes).timestamp TSB_DELETION := by
      unfold tsbHasBit TSB_DELETION
      dsimp only
      omega
    rw [if_pos (Or.inr (Or.inl hbit))]

/-- Witness for `delete_bypasses_disable`: a freshly disabled store,
key (1,2), `t = 300`, value `[42]`. -/
theorem delete_bypasses_disable_witness :
    (publicWrite (disableWrites (initStore ⟨100, 0⟩)) 1 2 300 [42] =
      ⟨300, some .disabled, disableWrites (initStore ⟨100, 0⟩)⟩ ∧
    (publicDelete (disableWrites (initStore ⟨100, 0⟩)) 1 2 300).err = none ∧
    (publicDelete (disableWrites (initStore ⟨100, 0⟩)) 1 2 300).ts =
      (((vlGet (disableWrites (initStore ⟨100, 0⟩)).locs 1 2).timestamp / 2 ^ 8 :
        Nat) : Int) ∧
    ((vlGet (disableWrites (initStore ⟨100, 0⟩)).locs 1 2).timestamp <
        (300 : Int).toNat * 2 ^ 8 + TSB_DELETION →
      vlGet (publicDelete (disableWrites (initStore ⟨100, 0⟩)) 1 2 300).store.locs
          1 2 =
        ⟨(300 : Int).toNat * 2 ^ 8 + TSB_DELETION,
          (disableWrites (initStore ⟨100, 0⟩)).memId,
          (disableWrites (initStore ⟨100, 0⟩)).memOff, 0⟩ ∧
      (publicRead (publicDelete (disableWrites (initStore ⟨100, 0⟩)) 1 2 300).store
        1 2).err = some .notFound)) :=
  delete_bypasses_disable (disableWrites (initStore ⟨100, 0⟩)) 1 2 300 [42] rfl
    (by decide) (by decide) (by decide)

/-! ### Claim C10: the block-registry bounds guard (`addLocBlock`) -/

/-- The length of the `locBlocks` slice:
`make([]valueLocBlock, math.MaxUint16)` in `NewValueStore`. -/
def locBlocksLen : Nat := 2 ^ 16 - 1

/-- `DefaultValueStore.addLocBlock`: atomically increment `locBlockIDer`
(a uint64, so modulo `2^64`), reject ids `≥ math.MaxUint32 = 2^32 - 1`,
and otherwise report the id at which `store.locBlocks[id] = block` is
executed.  (The model returns the index used by the assignment; the Go
assignment itself is only in bounds when the id is below
`locBlocksLen`.) -/
def addLocBlock (locBlockIDer : Nat) : Option Nat :=
  if (locBlockIDer + 1) % 2 ^ 64 ≥ 2 ^ 32 - 1 then none
  else some ((locBlockIDer + 1) % 2 ^ 64)

/-- C10 (code bug): the `id >= math.MaxUint32` guard in `addLocBlock` is
not sufficient for the `locBlocks` array, which `NewValueStore` allocates
with only `math.MaxUint16 = 65535` entries: the call that produces id
65535 passes the guard (`65535 < 2^32 - 1`) yet indexes out of bounds
(valid indices are `0 .. 65534`).  From `DefaultValueStore.addLocBlock`
and `NewValueStore` in `valuestore_GEN_.go`. -/
theorem addLocBlock_guard_insufficient :
    addLocBlock 65534 = some 65535 ∧
    ¬(65535 ≥ 2 ^ 32 - 1) ∧
    locBlocksLen = 65535 ∧
    ¬(65535 < locBlocksLen) := by
  refine ⟨by decide, by decide, by decide, by decide⟩

/-! ### Claim C7: the value-file trailer

The writer side models the trailer loop of `valueStoreFile.closeWriting`
(the `storefile` code): the ASCII bytes `"TERM v0 "` are copied into the
current write buffer, with a 4-byte checksum inserted and the buffer
flushed whenever the checksum interval fills.  The checksum function is a
parameter (its value never matters to the framing).  The verifier side
models the trailer section of `ValueDirectFile.VerifyHeaderAndTrailer`
(`valuedirectfile_GEN_.go`), which reads the *16-byte* trailer
`0:4, offsetOfTrailer:8, "TERM":4`. -/

/-- The ASCII bytes of `"TERM v0 "` (`_VALUE_FILE_TRAILER_SIZE = 8`). -/
def termBytes : List Nat := [84, 69, 82, 77, 32, 118, 48, 32]

/-- The trailer loop of `closeWriting`: `bufc` is the unflushed payload in
`writerCurrentBuf` (`buf[:offset]`), `rem` the trailer bytes still to
copy.  Each iteration copies `n = min (interval - offset) left` bytes; if
trailer bytes remain, a 4-byte checksum of the (now full) buffer is
appended; the buffer is written out and reset.  `fuel` bounds the
iteration count (the loop runs at most `rem.length` times once the buffer
has room). -/
def trailerWrites (fuel interval : Nat) (cks : List Nat → List Nat)
    (bufc rem : List Nat) : List Nat :=
  match fuel with
  | 0 => bufc
  | fuel + 1 =>
    if rem.length ≤ min (interval - bufc.length) rem.length then
      bufc ++ rem.take (min (interval - bufc.length) rem.length)
    else
      (bufc ++ rem.take (min (interval - bufc.length) rem.length)) ++
        cks (bufc ++ rem.take (min (interval - bufc.length) rem.length)) ++
        trailerWrites fuel interval cks []
          (rem.drop (min (interval - bufc.length) rem.length))

/-- Checksum deframing: traverse the raw byte stream counting payload
bytes; after every `interval` payload bytes, the following 4 bytes are the
checksum and are dropped.  `since` is the payload count since the last
checksum. -/
def stripPayload (interval : Nat) (since : Nat) (l : List Nat) : List Nat :=
  match l with
  | [] => []
  | b :: rest =>
    if since = interval then stripPayload interval 0 (rest.drop 3)
    else b :: stripPayload interval (since + 1) rest
termination_by l.length
decreasing_by
  · simp
    omega
  · simp

theorem stripPayload_nil (interval s : Nat) : stripPayload interval s [] = [] := by
  unfold stripPayload
  rfl

theorem stripPayload_cons (interval s b : Nat) (rest : List Nat) :
    stripPayload interval s (b :: rest) =
      if s = interval then stripPayload interval 0 (rest.drop 3)
      else b :: stripPayload interval (s + 1) rest := by
  conv_lhs => unfold stripPayload

theorem stripPayload_all (interval : Nat) (l : List Nat) :
    ∀ (s : Nat), s + l.length ≤ interval → stripPayload interval s l = l := by
  induction l with
  | nil => intro s _; exact stripPayload_nil interval s
  | cons b rest ih =>
    intro s h
    simp only [List.length_cons] at h
    rw [stripPayload_cons, if_neg (by omega), ih (s + 1) (by omega)]

theorem stripPayload_chunk (interval : Nat) (c rest : List Nat) (hc : c.length = 4) :
    ∀ (xs : List Nat) (s : Nat), s + xs.length = interval →
      stripPayload interval s (xs ++ (c ++ rest)) =
        xs ++ stripPayload interval 0 rest := by
  intro xs
  induction xs with
  | nil =>
    intro s hs
    simp only [List.length_nil, Nat.add_zero] at hs
    match c, hc with
    | [c0, c1, c2, c3], _ =>
      simp only [List.nil_append, List.cons_append]
      rw [stripPayload_cons, if_pos hs]
      simp

  | cons x xs' ih =>
    intro s hs
    simp only [List.length_cons] at hs
    simp only [List.cons_append]
    rw [stripPayload_cons, if_neg (by omega), ih (s + 1) (by omega)]

theorem trailerWrites_payload (interval : Nat) (cks : List Nat → List Nat)
    (hcks : ∀ x, (cks x).length = 4) :
    ∀ (fuel : Nat) (rem bufc : List Nat), rem.length ≤ fuel →
      bufc.length < interval →
      stripPayload interval 0 (trailerWrites fuel interval cks bufc rem) =
        bufc ++ rem := by
  intro fuel
  induction fuel with
  | zero =>
    intro rem bufc hfuel hbuf
    have hrem : rem = [] := by
      cases rem with
      | nil => rfl
      | cons a r => simp at hfuel
    subst hrem
    unfold trailerWrites
    rw [stripPayload_all interval bufc 0 (by omega)]
    simp
  | succ fuel ih =>
    intro rem bufc hfuel hbuf
    unfold trailerWrites
    by_cases hdone : rem.length ≤ min (interval - bufc.length) rem.length
    · rw [if_pos hdone]
      have hn : min (interval - bufc.length) rem.length = rem.length := by omega
      rw [hn, List.take_length]
      refine stripPayload_all interval (bufc ++ rem) 0 ?_
      have : rem.length ≤ interval - bufc.length := by omega
      simp only [Nat.zero_add, List.length_append]
      omega
    · rw [if_neg hdone]
      have hn : min (interval - bufc.length) rem.length = interval - bufc.length := by
        omega
      have hlt : interval - bufc.length < rem.length := by omega
      rw [hn]
      have hfull : (bufc ++ rem.take (interval - bufc.length)).length = interval := by
        rw [List.length_append, List.length_take]
        omega
      rw [List.append_assoc]
      rw [stripPayload_chunk interval _ _ (hcks _) _ 0 (by rw [Nat.zero_add, hfull])]
      rw [ih (rem.drop (interval - bufc.length)) [] (by
          rw [List.length_drop]; omega) (by simp; omega)]
      rw [List.nil_append, List.append_assoc, List.take_append_drop]

/-- Decode of `binary.BigEndian.Uint64`. -/
def u64beVal (bytes : List Nat) : Nat :=
  bytes.foldl (fun acc b => acc * 256 + b) 0

/-- Go's `int64(x)` reinterpretation of a uint64 value. -/
def toInt64 (n : Nat) : Int :=
  if n < 2 ^ 63 then (n : Int) else (n : Int) - 2 ^ 64

/-- The trailer checks of `ValueDirectFile.VerifyHeaderAndTrailer`
(`valuedirectfile_GEN_.go` lines 116–134): `buf` is the 16-byte trailer,
`size` the file size; each failed check appends one error. -/
def directTrailerErrors (buf : List Nat) (size : Int) : Nat :=
  (if buf.take 4 ≠ [0, 0, 0, 0] then 1 else 0) +
  (if toInt64 (u64beVal ((buf.drop 4).take 8)) > size - 16 then 1 else 0) +
  (if buf.drop 12 ≠ [84, 69, 82, 77] then 1 else 0)

/-- C7 (amended): every value file closed by the file writer ends, in the
checksum-deframed payload, with exactly the 8 ASCII bytes `"TERM v0 "`
(with a 4-byte checksum inserted when the trailer straddles the checksum
interval); but the value-file verification path
(`ValueDirectFile.VerifyHeaderAndTrailer`) instead checks a 16-byte
trailer — four zero bytes, an 8-byte offset, `"TERM"` — and reports at
least one error for every 16-byte trailer that ends in `"TERM v0 "`.
From `valueStoreFile.closeWriting` and
`ValueDirectFile.VerifyHeaderAndTrailer`. -/
theorem value_file_trailer (interval : Nat) (cks : List Nat → List Nat)
    (pending : List Nat)
    (hpend : pending.length < interval)
    (hcks : ∀ x, (cks x).length = 4) :
    stripPayload interval 0 (trailerWrites 8 interval cks pending termBytes) =
      pending ++ termBytes ∧
    termBytes.length = 8 ∧
    (∀ (buf : List Nat) (size : Int) (pre : List Nat),
      buf = pre ++ termBytes → buf.length = 16 →
      0 < directTrailerErrors buf size) := by
  refine ⟨?_, rfl, ?_⟩
  · exact trailerWrites_payload interval cks hcks 8 termBytes pending
      (by decide) hpend
  · rintro buf size pre rfl hlen
    have hpre : pre.length = 8 := by
      rw [List.length_append] at hlen
      unfold termBytes at hlen
      simp at hlen
      omega
    have hdrop : (pre ++ termBytes).drop 12 = [32, 118, 48, 32] := by
      match pre, hpre with
      | [a0, a1, a2, a3, a4, a5, a6, a7], _ => rfl
    unfold directTrailerErrors
    rw [hdrop]
    rw [if_pos (show ([32, 118, 48, 32] : List Nat) ≠ [84, 69, 82, 77] by decide)]
    omega

/-- Witness for `value_file_trailer`: checksum interval 10, constant
checksum `[1, 2, 3, 4]`, 3 pending payload bytes `[5, 5, 5]` (the trailer
straddles the interval, so one checksum is inserted). -/
theorem value_file_trailer_witness :
    (stripPayload 10 0
        (trailerWrites 8 10 (fun _ => [1, 2, 3, 4]) [5, 5, 5] termBytes) =
      [5, 5, 5] ++ termBytes ∧
    termBytes.length = 8 ∧
    (∀ (buf : List Nat) (size : Int) (pre : List Nat),
      buf = pre ++ termBytes → buf.length = 16 →
      0 < directTrailerErrors buf size)) :=
  value_file_trailer 10 (fun _ => [1, 2, 3, 4]) [5, 5, 5] (by decide)
    (fun _ => rfl)

/-- C7 counterexample to the claim as stated: a value file whose payload
ends with the writer's own 8-byte trailer `"TERM v0 "` (here: an
8-payload-byte file tail `[0,0,0,0,0,0,0,0]` followed by the trailer just
written) is *not* accepted as well-formed by
`ValueDirectFile.VerifyHeaderAndTrailer`: its 16-byte trailer check
reports an error (the last four bytes are `" v0 "`, not `"TERM"`). -/
theorem value_file_trailer_counterexample :
    trailerWrites 8 64 (fun _ => [0, 0, 0, 0]) [] termBytes = termBytes ∧
    0 < directTrailerErrors ([0, 0, 0, 0, 0, 0, 0, 0] ++ termBytes) 1000 := by
  constructor
  · rfl
  · decide

/-! ### Claim C8: the incoming pull-replication responder (group variant)

`DefaultGroupStore.inPullReplication` (`grouppullreplication_GEN_.go`,
lines 168–249) is modelled over an abstract quiescent index: a list of
live entries (each carrying its value bytes).  The externals it calls are
modelled as parameters or from the spec: the bloom filter's `mayHave` is
an arbitrary boolean function; `ring.ReplicaCount()` and
`ring.ResponsibleReplica(...)` are the parameters `replicaCount` and
`ridx`; `ScanCallback` (the `gholt/valuelocmap` package, not under
`src/`) and `bsm.add` (the `bulkset.got` code, not under `src/`) are
modelled from the spec as noted on their definitions. -/

/-- One live entry of the abstract group index, with its value bytes. -/
structure GEntry where
  keyA : Nat
  keyB : Nat
  nameKeyA : Nat
  nameKeyB : Nat
  tsb : Nat
  length : Nat
  value : List Nat
  deriving Repr, DecidableEq

/-- One entry of an outgoing bulk-set message body. -/
structure OutEntry where
  keyA : Nat
  keyB : Nat
  nameKeyA : Nat
  nameKeyB : Nat
  tsb : Nat
  value : List Nat
  deriving Repr, DecidableEq

/-- Modelled from the spec (§6.3): `_GROUP_BULK_SET_MSG_ENTRY_HEADER_LENGTH`,
the fixed part of a group bulk-set entry:
`keyA:8, keyB:8, nameKeyA:8, nameKeyB:8, ts:8, length:4` = 44 bytes. -/
def GROUP_BULK_SET_MSG_ENTRY_HEADER_LENGTH : Nat := 44

/-- Modelled from the spec (§4.1 `scan_callback`): whether the scan visits
an entry — it lies in `[start, stop]`, `ts & reject_mask == 0`, and
`ts ≤ cutoff` when `cutoff` is non-zero. -/
def scanVisible (start stop reject cutoff : Nat) (e : GEntry) : Bool :=
  decide (start ≤ e.keyA) && decide (e.keyA ≤ stop) &&
    decide (e.tsb &&& reject = 0) &&
    (decide (cutoff = 0) || decide (e.tsb ≤ cutoff))

/-- Modelled from the spec (§4.1 `scan_callback`; the `ScanCallback` of
the external `gholt/valuelocmap` package is not under `src/`): fold the
callback over the visible entries of the index in its enumeration order,
stopping when the callback returns false.  (The call site passes
`max_count = math.MaxUint64`, which a finite index never reaches, so the
count bound is omitted.) -/
def scanCallbackFold {σ : Type} (entries : List GEntry)
    (start stop reject cutoff : Nat) (cb : σ → GEntry → σ × Bool) (st : σ) : σ :=
  match entries with
  | [] => st
  | e :: rest =>
    if scanVisible start stop reject cutoff e then
      match cb st e with
      | (st', true) => scanCallbackFold rest start stop reject cutoff cb st'
      | (st', false) => st'
    else scanCallbackFold rest start stop reject cutoff cb st

/-- The collection callback of `inPullReplication`: keep an entry that is
not a stale tombstone (`tsb&DELETION == 0 || tsb >= tombstoneCutoff`) and
not in the bloom filter; charge `entryHeader + length` against the
remaining budget `l` and stop the scan when the budget reaches zero. -/
def pullCollectCb (mayHave : Nat → Nat → Nat → Nat → Nat → Bool) (tombCut : Nat)
    (st : List (Nat × Nat × Nat × Nat) × Int) (e : GEntry) :
    (List (Nat × Nat × Nat × Nat) × Int) × Bool :=
  if e.tsb &&& TSB_DELETION = 0 ∨ tombCut ≤ e.tsb then
    if ¬mayHave e.keyA e.keyB e.nameKeyA e.nameKeyB e.tsb then
      ((st.1 ++ [(e.keyA, e.keyB, e.nameKeyA, e.nameKeyB)],
        st.2 - ((GROUP_BULK_SET_MSG_ENTRY_HEADER_LENGTH : Int) + e.length)),
        decide (0 < st.2 - ((GROUP_BULK_SET_MSG_ENTRY_HEADER_LENGTH : Int) + e.length)))
    else (st, true)
  else (st, true)

/-- The first index entry with the four given keys (the quiescent
`locmap.Get` over the abstract index; every modelled entry is live). -/
def findEntry (entries : List GEntry) (kA kB nkA nkB : Nat) : Option GEntry :=
  match entries with
  | [] => none
  | e :: rest =>
    if e.keyA = kA ∧ e.keyB = kB ∧ e.nameKeyA = nkA ∧ e.nameKeyB = nkB then some e
    else findEntry rest kA kB nkA nkB

/-- `DefaultGroupStore.read` over the abstract index
(`groupstore_GEN_.go`): `ErrNotFound` with timestampbits 0 on a miss;
`ErrNotFound` with the stored timestampbits when `DELETION` or
`LOCAL_REMOVAL` is set (the value buffer stays empty); otherwise the
stored timestampbits and value. -/
def readG (entries : List GEntry) (kA kB nkA nkB : Nat) :
    Nat × List Nat × Option SErr :=
  match findEntry entries kA kB nkA nkB with
  | none => (0, [], some .notFound)
  | some e =>
    if e.tsb &&& TSB_DELETION ≠ 0 ∨ e.tsb &&& TSB_LOCAL_REMOVAL ≠ 0 then
      (e.tsb, [], some .notFound)
    else (e.tsb, e.value, none)

/-- The response-building loop of `inPullReplication`: for each collected
key, re-read it; skip never-seen keys (`ErrNotFound` with ts 0); skip
entries whose (re-read) timestampbits carry `LOCAL_REMOVAL`; otherwise
append a bulk-set entry unless it would push the body past `msgCap`
(`bsm.add` is modelled from the spec §6.3: adding is rejected when it
would exceed `bulkSetMsgCap`), in which case the loop breaks.  `blen` is
the current body length. -/
def buildLoop (entries : List GEntry) (msgCap : Nat)
    (ks : List (Nat × Nat × Nat × Nat)) (blen : Nat) : List OutEntry :=
  match ks with
  | [] => []
  | (kA, kB, nkA, nkB) :: rest =>
    match readG entries kA kB nkA nkB with
    | (t, v, err) =>
      if err = some .notFound ∧ t = 0 then buildLoop entries msgCap rest blen
      else if t &&& TSB_LOCAL_REMOVAL = 0 then
        if blen + GROUP_BULK_SET_MSG_ENTRY_HEADER_LENGTH + v.length > msgCap then []
        else ⟨kA, kB, nkA, nkB, t, v⟩ ::
          buildLoop entries msgCap rest
            (blen + GROUP_BULK_SET_MSG_ENTRY_HEADER_LENGTH + v.length)
      else buildLoop entries msgCap rest blen

/-- `DefaultGroupStore.inPullReplication` for one received summary, over
the abstract index: scan `[scanStart, rangeStop]` where
`scanStart = rangeStart + (rangeStop - rangeStart) / replicaCount * ridx`,
then — if budget remains — wrap around with `[rangeStart, scanStart - 1]`
(uint64 subtraction, hence the `% 2^64`); then build the outgoing
bulk-set from the collected keys and send it (ack-node-id header 0) when
non-empty. -/
def inPullReplication (entries : List GEntry)
    (mayHave : Nat → Nat → Nat → Nat → Nat → Bool)
    (msgCap tombCut replicaCount ridx cutoff rangeStart rangeStop : Nat) :
    Option (Nat × List OutEntry) :=
  let scanStart := rangeStart + (rangeStop - rangeStart) / replicaCount * ridx
  let st1 := scanCallbackFold entries scanStart rangeStop TSB_LOCAL_REMOVAL cutoff
    (pullCollectCb mayHave tombCut) ([], (msgCap : Int))
  let st2 := if 0 < st1.2 then
    scanCallbackFold entries rangeStart ((scanStart + (2 ^ 64 - 1)) % 2 ^ 64)
      TSB_LOCAL_REMOVAL cutoff (pullCollectCb mayHave tombCut) st1
  else st1
  if st2.1 = [] then none
  else
    match buildLoop entries msgCap st2.1 0 with
    | [] => none
    | body => some (0, body)

/-! #### The declarative side of C8 -/

/-- The claim's selection predicate: not a stale tombstone (a tombstone is
kept only if `tombstoneCutoff ≤ tsb`) and not in the received bloom
filter. -/
def wantedEntry (mayHave : Nat → Nat → Nat → Nat → Nat → Bool) (tombCut : Nat)
    (e : GEntry) : Bool :=
  (decide (e.tsb &&& TSB_DELETION = 0) || decide (tombCut ≤ e.tsb)) &&
    !mayHave e.keyA e.keyB e.nameKeyA e.nameKeyB e.tsb

/-- The entries a single scan pass visits, in index order. -/
def scanSeq (entries : List GEntry) (start stop reject cutoff : Nat) :
    List GEntry :=
  entries.filter (scanVisible start stop reject cutoff)

/-- The bulk-set entry an index entry becomes: tombstones ship with an
empty value. -/
def toOut (e : GEntry) : OutEntry :=
  ⟨e.keyA, e.keyB, e.nameKeyA, e.nameKeyB, e.tsb,
    if e.tsb &&& TSB_DELETION ≠ 0 ∨ e.tsb &&& TSB_LOCAL_REMOVAL ≠ 0 then []
    else e.value⟩

/-- Greedy budget prefix: take entries in order while the body stays
within `msgCap`, stopping at the first entry that does not fit. -/
def fitPrefix (msgCap blen : Nat) (cands : List GEntry) : List GEntry :=
  match cands with
  | [] => []
  | e :: rest =>
    if blen + GROUP_BULK_SET_MSG_ENTRY_HEADER_LENGTH + e.length > msgCap then []
    else e :: fitPrefix msgCap
      (blen + GROUP_BULK_SET_MSG_ENTRY_HEADER_LENGTH + e.length) rest

/-- The claim's description of the outgoing bulk-set: scan the index over
the summary's range starting at the replica-staggered offset (wrapping),
keep exactly the entries that are neither in the bloom filter nor stale
tombstones, stop when the message budget is exhausted, and send the
result with ack-node-id 0 (no message when nothing was selected). -/
def pullResponseSpec (entries : List GEntry)
    (mayHave : Nat → Nat → Nat → Nat → Nat → Bool)
    (msgCap tombCut replicaCount ridx cutoff rangeStart rangeStop : Nat) :
    Option (Nat × List OutEntry) :=
  let scanStart := rangeStart + (rangeStop - rangeStart) / replicaCount * ridx
  let sel := fitPrefix msgCap 0
    ((scanSeq entries scanStart rangeStop TSB_LOCAL_REMOVAL cutoff ++
      scanSeq entries rangeStart ((scanStart + (2 ^ 64 - 1)) % 2 ^ 64)
        TSB_LOCAL_REMOVAL cutoff).filter (wantedEntry mayHave tombCut))
  if sel = [] then none else some (0, sel.map toOut)

/-! #### Proof infrastructure for C8 -/

/-- Reference evolution of the collection state over the (already
visibility-filtered) scan sequence. -/
def collectSt (mayHave : Nat → Nat → Nat → Nat → Nat → Bool) (tombCut : Nat)
    (st : List (Nat × Nat × Nat × Nat) × Int) (s : List GEntry) :
    List (Nat × Nat × Nat × Nat) × Int :=
  match s with
  | [] => st
  | e :: rest =>
    if wantedEntry mayHave tombCut e then
      if st.2 - ((GROUP_BULK_SET_MSG_ENTRY_HEADER_LENGTH : Int) + e.length) ≤ 0 then
        (st.1 ++ [(e.keyA, e.keyB, e.nameKeyA, e.nameKeyB)],
          st.2 - ((GROUP_BULK_SET_MSG_ENTRY_HEADER_LENGTH : Int) + e.length))
      else
        collectSt mayHave tombCut
          (st.1 ++ [(e.keyA, e.keyB, e.nameKeyA, e.nameKeyB)],
            st.2 - ((GROUP_BULK_SET_MSG_ENTRY_HEADER_LENGTH : Int) + e.length)) rest
    else collectSt mayHave tombCut st rest

/-- The collected overshoot prefix of the filtered candidates: entries are
taken while budget remains, including the one that exhausts it. -/
def overPrefix (l : Int) (cands : List GEntry) : List GEntry :=
  match cands with
  | [] => []
  | e :: rest =>
    if l - ((GROUP_BULK_SET_MSG_ENTRY_HEADER_LENGTH : Int) + e.length) ≤ 0 then [e]
    else e :: overPrefix (l - ((GROUP_BULK_SET_MSG_ENTRY_HEADER_LENGTH : Int) + e.length)) rest

/-- The key quadruple of an entry, as the collection loop stores it. -/
def entryKey (e : GEntry) : Nat × Nat × Nat × Nat :=
  (e.keyA, e.keyB, e.nameKeyA, e.nameKeyB)

theorem scanCallbackFold_collect (mayHave : Nat → Nat → Nat → Nat → Nat → Bool)
    (tombCut : Nat) (start stop cutoff : Nat) :
    ∀ (entries : List GEntry) (st : List (Nat × Nat × Nat × Nat) × Int),
      scanCallbackFold entries start stop TSB_LOCAL_REMOVAL cutoff
        (pullCollectCb mayHave tombCut) st =
      collectSt mayHave tombCut st
        (scanSeq entries start stop TSB_LOCAL_REMOVAL cutoff) := by
  intro entries
  induction entries with
  | nil => intro st; rfl
  | cons e rest ih =>
    intro st
    by_cases hvis : scanVisible start stop TSB_LOCAL_REMOVAL cutoff e
    · rw [scanCallbackFold, if_pos hvis]
      have hseq : scanSeq (e :: rest) start stop TSB_LOCAL_REMOVAL cutoff =
          e :: scanSeq rest start stop TSB_LOCAL_REMOVAL cutoff := by
        simp [scanSeq, hvis]
      rw [hseq]
      by_cases hwant : wantedEntry mayHave tombCut e = true
      · have hw1 : e.tsb &&& TSB_DELETION = 0 ∨ tombCut ≤ e.tsb := by
          simp only [wantedEntry, Bool.and_eq_true, Bool.or_eq_true,
            decide_eq_true_eq] at hwant
          exact hwant.1
        have hw2 : ¬mayHave e.keyA e.keyB e.nameKeyA e.nameKeyB e.tsb = true := by
          simp only [wantedEntry, Bool.and_eq_true, Bool.not_eq_true',
            Bool.not_eq_true] at hwant
          simp [hwant.2]
        rw [collectSt, if_pos hwant]
        unfold pullCollectCb
        rw [if_pos hw1, if_pos hw2]
        by_cases hl : st.2 -
            ((GROUP_BULK_SET_MSG_ENTRY_HEADER_LENGTH : Int) + e.length) ≤ 0
        · rw [if_pos hl]
          have hd : decide (0 < st.2 -
              ((GROUP_BULK_SET_MSG_ENTRY_HEADER_LENGTH : Int) + e.length)) = false := by
            simp
            omega
          rw [hd]
        · rw [if_neg hl]
          have hd : decide (0 < st.2 -
              ((GROUP_BULK_SET_MSG_ENTRY_HEADER_LENGTH : Int) + e.length)) = true := by
            simp
            omega
          rw [hd]
          exact ih _
      · rw [collectSt, if_neg hwant]
        unfold pullCollectCb
        by_cases h1 : e.tsb &&& TSB_DELETION = 0 ∨ tombCut ≤ e.tsb
        · have h2 : mayHave e.keyA e.keyB e.nameKeyA e.nameKeyB e.tsb = true := by
            by_contra h2
            apply hwant
            simp only [wantedEntry, Bool.and_eq_true, Bool.or_eq_true,
              decide_eq_true_eq]
            exact ⟨h1, by simp [h2]⟩
          rw [if_pos h1, if_neg (by simp [h2])]
          exact ih st
        · rw [if_neg h1]
          exact ih st
    · rw [scanCallbackFold, if_neg hvis]
      have hseq : scanSeq (e :: rest) start stop TSB_LOCAL_REMOVAL cutoff =
          scanSeq rest start stop TSB_LOCAL_REMOVAL cutoff := by
        simp [scanSeq, hvis]
      rw [hseq]
      exact ih st

theorem collectSt_append_of_pos (mayHave : Nat → Nat → Nat → Nat → Nat → Bool)
    (tombCut : Nat) :
    ∀ (s1 : List GEntry) (st : List (Nat × Nat × Nat × Nat) × Int)
      (s2 : List GEntry), 0 < (collectSt mayHave tombCut st s1).2 →
      collectSt mayHave tombCut st (s1 ++ s2) =
        collectSt mayHave tombCut (collectSt mayHave tombCut st s1) s2 := by
  intro s1
  induction s1 with
  | nil => intro st s2 _; rfl
  | cons e rest ih =>
    intro st s2 hpos
    rw [collectSt] at hpos
    simp only [List.cons_append]
    rw [collectSt, collectSt]
    by_cases hwant : wantedEntry mayHave tombCut e = true
    · rw [if_pos hwant] at hpos ⊢
      rw [if_pos hwant]
      by_cases hl : st.2 -
          ((GROUP_BULK_SET_MSG_ENTRY_HEADER_LENGTH : Int) + e.length) ≤ 0
      · rw [if_pos hl] at hpos
        dsimp only at hpos
        omega
      · rw [if_neg hl] at hpos ⊢
        rw [if_neg hl]
        exact ih _ s2 hpos
    · rw [if_neg hwant] at hpos ⊢
      rw [if_neg hwant]
      exact ih st s2 hpos

theorem collectSt_append_of_stopped (mayHave : Nat → Nat → Nat → Nat → Nat → Bool)
    (tombCut : Nat) :
    ∀ (s1 : List GEntry) (st : List (Nat × Nat × Nat × Nat) × Int)
      (s2 : List GEntry), 0 < st.2 →
      (collectSt mayHave tombCut st s1).2 ≤ 0 →
      collectSt mayHave tombCut st (s1 ++ s2) =
        collectSt mayHave tombCut st s1 := by
  intro s1
  induction s1 with
  | nil =>
    intro st s2 hpos hstop
    dsimp [collectSt] at hstop
    omega
  | cons e rest ih =>
    intro st s2 hpos hstop
    rw [collectSt] at hstop
    simp only [List.cons_append]
    rw [collectSt, collectSt]
    by_cases hwant : wantedEntry mayHave tombCut e = true
    · rw [if_pos hwant] at hstop ⊢
      rw [if_pos hwant]
      by_cases hl : st.2 -
          ((GROUP_BULK_SET_MSG_ENTRY_HEADER_LENGTH : Int) + e.length) ≤ 0
      · rw [if_pos hl]
        rw [if_pos hl]
      · rw [if_neg hl] at hstop ⊢
        rw [if_neg hl]
        exact ih _ s2 (by omega) hstop
    · rw [if_neg hwant] at hstop ⊢
      rw [if_neg hwant]
      exact ih st s2 hpos hstop

theorem collectSt_keys (mayHave : Nat → Nat → Nat → Nat → Nat → Bool)
    (tombCut : Nat) :
    ∀ (s : List GEntry) (k0 : List (Nat × Nat × Nat × Nat)) (l0 : Int),
      (collectSt mayHave tombCut (k0, l0) s).1 =
        k0 ++ (overPrefix l0 (s.filter (wantedEntry mayHave tombCut))).map entryKey := by
  intro s
  induction s with
  | nil => intro k0 l0; simp [collectSt, overPrefix]
  | cons e rest ih =>
    intro k0 l0
    rw [collectSt]
    dsimp only
    by_cases hwant : wantedEntry mayHave tombCut e = true
    · rw [if_pos hwant]
      have hfil : (e :: rest).filter (wantedEntry mayHave tombCut) =
          e :: rest.filter (wantedEntry mayHave tombCut) := by
        simp [List.filter, hwant]
      rw [hfil]
      by_cases hl : l0 - ((GROUP_BULK_SET_MSG_ENTRY_HEADER_LENGTH : Int) + e.length) ≤ 0
      · rw [if_pos hl, overPrefix, if_pos hl]
        simp [entryKey]
      · rw [if_neg hl, overPrefix, if_neg hl]
        rw [ih]
        simp [entryKey]
    · rw [if_neg hwant]
      have hfil : (e :: rest).filter (wantedEntry mayHave tombCut) =
          rest.filter (wantedEntry mayHave tombCut) := by
        simp [List.filter, hwant]
      rw [hfil, ih]

/-- Abstract-index invariant: entry keys are pairwise distinct. -/
def distinctKeys (entries : List GEntry) : Prop :=
  entries.Pairwise fun a b => ¬(a.keyA = b.keyA ∧ a.keyB = b.keyB ∧
    a.nameKeyA = b.nameKeyA ∧ a.nameKeyB = b.nameKeyB)

instance (entries : List GEntry) : Decidable (distinctKeys entries) := by
  unfold distinctKeys; infer_instance

theorem findEntry_self (entries : List GEntry) (hdist : distinctKeys entries)
    (e : GEntry) (he : e ∈ entries) :
    findEntry entries e.keyA e.keyB e.nameKeyA e.nameKeyB = some e := by
  induction entries with
  | nil => cases he
  | cons h rest ih =>
    rw [distinctKeys, List.pairwise_cons] at hdist
    rcases List.mem_cons.mp he with rfl | hmem
    · rw [findEntry, if_pos ⟨rfl, rfl, rfl, rfl⟩]
    · rw [findEntry, if_neg]
      · exact ih hdist.2 hmem
      · rintro ⟨h1, h2, h3, h4⟩
        exact hdist.1 e hmem ⟨h1, h2, h3, h4⟩

theorem fitPrefix_stop (msgCap blen : Nat) (cands : List GEntry)
    (h : msgCap ≤ blen) : fitPrefix msgCap blen cands = [] := by
  cases cands with
  | nil => rfl
  | cons e rest =>
    rw [fitPrefix, if_pos]
    unfold GROUP_BULK_SET_MSG_ENTRY_HEADER_LENGTH
    omega

theorem buildLoop_capZero (entries : List GEntry) :
    ∀ (ks : List (Nat × Nat × Nat × Nat)) (blen : Nat),
      buildLoop entries 0 ks blen = [] := by
  intro ks
  induction ks with
  | nil => intro blen; rfl
  | cons k rest ih =>
    intro blen
    obtain ⟨kA, kB, nkA, nkB⟩ := k
    rw [buildLoop]
    match hr : readG entries kA kB nkA nkB with
    | (t, v, err) =>
      dsimp only
      by_cases h1 : err = some .notFound ∧ t = 0
      · rw [if_pos h1]
        exact ih blen
      · rw [if_neg h1]
        by_cases h2 : t &&& TSB_LOCAL_REMOVAL = 0
        · rw [if_pos h2, if_pos]
          unfold GROUP_BULK_SET_MSG_ENTRY_HEADER_LENGTH
          omega
        · rw [if_neg h2]
          exact ih blen

theorem buildLoop_fitPrefix (entries : List GEntry) (msgCap : Nat)
    (hdist : distinctKeys entries)
    (hwfv : ∀ e ∈ entries, e.value.length = e.length)
    (hwft : ∀ e ∈ entries, e.tsb &&& TSB_DELETION ≠ 0 → e.length = 0) :
    ∀ (cands : List GEntry) (blen : Nat),
      (∀ e ∈ cands, e ∈ entries ∧ e.tsb &&& TSB_LOCAL_REMOVAL = 0) →
      buildLoop entries msgCap
        ((overPrefix ((msgCap : Int) - blen) cands).map entryKey) blen =
        (fitPrefix msgCap blen cands).map toOut := by
  intro cands
  induction cands with
  | nil => intro blen _; rfl
  | cons e rest ih =>
    intro blen hmem
    obtain ⟨hein, hlocrem⟩ := hmem e (List.mem_cons_self e rest)
    have hfind := findEntry_self entries hdist e hein
    have hread : readG entries e.keyA e.keyB e.nameKeyA e.nameKeyB =
        (e.tsb, if e.tsb &&& TSB_DELETION ≠ 0 then [] else e.value,
          if e.tsb &&& TSB_DELETION ≠ 0 then some .notFound else none) := by
      unfold readG
      rw [hfind]
      dsimp only
      by_cases hdel : e.tsb &&& TSB_DELETION ≠ 0
      · rw [if_pos (Or.inl hdel), if_pos hdel, if_pos hdel]
      · have hnc : ¬(e.tsb &&& TSB_DELETION ≠ 0 ∨
            e.tsb &&& TSB_LOCAL_REMOVAL ≠ 0) :=
          fun hc => hc.elim hdel fun h => h hlocrem
        rw [if_neg hnc, if_neg hdel, if_neg hdel]
    have hvlen : (if e.tsb &&& TSB_DELETION ≠ 0 then ([] : List Nat)
        else e.value).length = e.length := by
      by_cases hdel : e.tsb &&& TSB_DELETION ≠ 0
      · rw [if_pos hdel]
        simp [hwft e hein hdel]
      · rw [if_neg hdel]
        exact hwfv e hein
    have hskip : ¬((if e.tsb &&& TSB_DELETION ≠ 0 then some SErr.notFound
        else none) = some .notFound ∧ e.tsb = 0) := by
      rintro ⟨h1, h2⟩
      by_cases hdel : e.tsb &&& TSB_DELETION ≠ 0
      · rw [h2] at hdel
        simp at hdel
      · rw [if_neg hdel] at h1
        cases h1
    have hout : (⟨e.keyA, e.keyB, e.nameKeyA, e.nameKeyB, e.tsb,
        if e.tsb &&& TSB_DELETION ≠ 0 then [] else e.value⟩ : OutEntry) =
        toOut e := by
      unfold toOut
      congr 1
      by_cases hdel : e.tsb &&& TSB_DELETION ≠ 0
      · rw [if_pos hdel, if_pos (Or.inl hdel)]
      · have hnc : ¬(e.tsb &&& TSB_DELETION ≠ 0 ∨
            e.tsb &&& TSB_LOCAL_REMOVAL ≠ 0) :=
          fun hc => hc.elim hdel fun h => h hlocrem
        rw [if_neg hdel, if_neg hnc]
    by_cases hstop : (msgCap : Int) - blen -
        ((GROUP_BULK_SET_MSG_ENTRY_HEADER_LENGTH : Int) + e.length) ≤ 0
    · rw [overPrefix, if_pos hstop]
      rw [List.map_cons, List.map_nil]
      rw [show entryKey e = (e.keyA, e.keyB, e.nameKeyA, e.nameKeyB) from rfl]
      rw [buildLoop]
      rw [hread]
      dsimp only
      rw [if_neg hskip, if_pos hlocrem]
      by_cases hover : blen + GROUP_BULK_SET_MSG_ENTRY_HEADER_LENGTH +
          (if e.tsb &&& TSB_DELETION ≠ 0 then ([] : List Nat)
            else e.value).length > msgCap
      · rw [if_pos hover]
        rw [hvlen] at hover
        rw [fitPrefix, if_pos hover]
        rfl
      · rw [if_neg hover]
        rw [hvlen] at hover
        rw [fitPrefix, if_neg hover]
        rw [List.map_cons]
        rw [fitPrefix_stop msgCap
          (blen + GROUP_BULK_SET_MSG_ENTRY_HEADER_LENGTH + e.length) rest
          (by unfold GROUP_BULK_SET_MSG_ENTRY_HEADER_LENGTH at hstop ⊢; omega)]
        rw [List.map_nil]
        rw [show buildLoop entries msgCap [] (blen +
          GROUP_BULK_SET_MSG_ENTRY_HEADER_LENGTH +
          (if e.tsb &&& TSB_DELETION ≠ 0 then ([] : List Nat)
            else e.value).length) = [] from rfl]
        rw [hout]
    · rw [overPrefix, if_neg hstop]
      rw [List.map_cons]
      rw [show entryKey e = (e.keyA, e.keyB, e.nameKeyA, e.nameKeyB) from rfl]
      rw [buildLoop]
      rw [hread]
      dsimp only
      rw [if_neg hskip, if_pos hlocrem]
      have hover : ¬(blen + GROUP_BULK_SET_MSG_ENTRY_HEADER_LENGTH +
          (if e.tsb &&& TSB_DELETION ≠ 0 then ([] : List Nat)
            else e.value).length > msgCap) := by
        rw [hvlen]
        unfold GROUP_BULK_SET_MSG_ENTRY_HEADER_LENGTH at hstop ⊢
        omega
      rw [if_neg hover]
      have hover2 : ¬(blen + GROUP_BULK_SET_MSG_ENTRY_HEADER_LENGTH +
          e.length > msgCap) := by
        rw [hvlen] at hover
        exact hover
      rw [fitPrefix, if_neg hover2]
      rw [List.map_cons, hout]
      congr 1
      have harith : (msgCap : Int) - (blen +
          GROUP_BULK_SET_MSG_ENTRY_HEADER_LENGTH +
          (if e.tsb &&& TSB_DELETION ≠ 0 then ([] : List Nat)
            else e.value).length : Nat) =
          (msgCap : Int) - blen -
            ((GROUP_BULK_SET_MSG_ENTRY_HEADER_LENGTH : Int) + e.length) := by
        rw [hvlen]
        push_cast
        ring
      have hih := ih (blen + GROUP_BULK_SET_MSG_ENTRY_HEADER_LENGTH +
          (if e.tsb &&& TSB_DELETION ≠ 0 then ([] : List Nat)
            else e.value).length)
        (fun x hx => hmem x (List.mem_cons_of_mem e hx))
      rw [harith] at hih
      rw [hvlen] at hih ⊢
      exact hih

theorem overPrefix_cons_ne_nil (l : Int) (e : GEntry) (rest : List GEntry) :
    overPrefix l (e :: rest) ≠ [] := by
  rw [overPrefix]
  split <;> simp

/-- C8 (confirmed): for every received pull-replication summary, the
responder's outgoing bulk-set equals the declarative selection
`pullResponseSpec`: scan the index over `[rangeStart, rangeStop]`
starting at `rangeStart + (rangeStop - rangeStart)/replicaCount * ridx`
(wrapping to cover the rest of the range), keep exactly the scanned
entries that are not in the bloom filter and are not stale tombstones,
stop when the bulk-set budget is exhausted, and emit the result with
ack-node-id 0 (no message when nothing is selected).  Hypotheses: the
abstract index has pairwise-distinct keys, each entry's value has the
indexed length, and tombstones have length 0.  From
`DefaultGroupStore.inPullReplication` in `grouppullreplication_GEN_.go`. -/
theorem in_pull_replication_selects (entries : List GEntry)
    (mayHave : Nat → Nat → Nat → Nat → Nat → Bool)
    (msgCap tombCut replicaCount ridx cutoff rangeStart rangeStop : Nat)
    (hdist : distinctKeys entries)
    (hwfv : ∀ e ∈ entries, e.value.length = e.length)
    (hwft : ∀ e ∈ entries, e.tsb &&& TSB_DELETION ≠ 0 → e.length = 0) :
    inPullReplication entries mayHave msgCap tombCut replicaCount ridx cutoff
      rangeStart rangeStop =
    pullResponseSpec entries mayHave msgCap tombCut replicaCount ridx cutoff
      rangeStart rangeStop := by
  unfold inPullReplication pullResponseSpec
  dsimp only
  rw [scanCallbackFold_collect mayHave tombCut _ rangeStop cutoff entries,
    scanCallbackFold_collect mayHave tombCut rangeStart _ cutoff entries]
  by_cases hcap0 : msgCap = 0
  · subst hcap0
    rw [fitPrefix_stop 0 0 _ (Nat.le_refl 0)]
    rw [if_pos rfl]
    simp only [buildLoop_capZero entries _ 0]
    split <;> split <;> rfl
  · have hcappos : (0 : Int) < (msgCap : Nat) := by
      omega
    have hst2 : (if 0 < (collectSt mayHave tombCut ([], (msgCap : Int))
        (scanSeq entries (rangeStart + (rangeStop - rangeStart) / replicaCount * ridx)
          rangeStop TSB_LOCAL_REMOVAL cutoff)).2 then
        collectSt mayHave tombCut
          (collectSt mayHave tombCut ([], (msgCap : Int))
            (scanSeq entries
              (rangeStart + (rangeStop - rangeStart) / replicaCount * ridx)
              rangeStop TSB_LOCAL_REMOVAL cutoff))
          (scanSeq entries rangeStart
            ((rangeStart + (rangeStop - rangeStart) / replicaCount * ridx +
              (2 ^ 64 - 1)) % 2 ^ 64) TSB_LOCAL_REMOVAL cutoff)
      else collectSt mayHave tombCut ([], (msgCap : Int))
        (scanSeq entries (rangeStart + (rangeStop - rangeStart) / replicaCount * ridx)
          rangeStop TSB_LOCAL_REMOVAL cutoff)) =
        collectSt mayHave tombCut ([], (msgCap : Int))
          (scanSeq entries (rangeStart + (rangeStop - rangeStart) / replicaCount * ridx)
            rangeStop TSB_LOCAL_REMOVAL cutoff ++
          scanSeq entries rangeStart
            ((rangeStart + (rangeStop - rangeStart) / replicaCount * ridx +
              (2 ^ 64 - 1)) % 2 ^ 64) TSB_LOCAL_REMOVAL cutoff) := by
      by_cases hpos : 0 < (collectSt mayHave tombCut ([], (msgCap : Int))
          (scanSeq entries (rangeStart + (rangeStop - rangeStart) / replicaCount * ridx)
            rangeStop TSB_LOCAL_REMOVAL cutoff)).2
      · rw [if_pos hpos, collectSt_append_of_pos mayHave tombCut _ _ _ hpos]
      · rw [if_neg hpos, collectSt_append_of_stopped mayHave tombCut _ _ _
          hcappos (by omega)]
    rw [hst2]
    have hkeys := collectSt_keys mayHave tombCut
      (scanSeq entries (rangeStart + (rangeStop - rangeStart) / replicaCount * ridx)
        rangeStop TSB_LOCAL_REMOVAL cutoff ++
       scanSeq entries rangeStart
        ((rangeStart + (rangeStop - rangeStart) / replicaCount * ridx +
          (2 ^ 64 - 1)) % 2 ^ 64) TSB_LOCAL_REMOVAL cutoff)
      [] (msgCap : Int)
    rw [List.nil_append] at hkeys
    rw [hkeys]
    have hCmem : ∀ e ∈ (scanSeq entries
        (rangeStart + (rangeStop - rangeStart) / replicaCount * ridx)
        rangeStop TSB_LOCAL_REMOVAL cutoff ++
       scanSeq entries rangeStart
        ((rangeStart + (rangeStop - rangeStart) / replicaCount * ridx +
          (2 ^ 64 - 1)) % 2 ^ 64) TSB_LOCAL_REMOVAL cutoff).filter
        (wantedEntry mayHave tombCut),
        e ∈ entries ∧ e.tsb &&& TSB_LOCAL_REMOVAL = 0 := by
      intro e he
      have he2 := List.mem_of_mem_filter he
      have hvis : scanVisible (rangeStart +
          (rangeStop - rangeStart) / replicaCount * ridx) rangeStop
          TSB_LOCAL_REMOVAL cutoff e = true ∨
          scanVisible rangeStart
            ((rangeStart + (rangeStop - rangeStart) / replicaCount * ridx +
              (2 ^ 64 - 1)) % 2 ^ 64) TSB_LOCAL_REMOVAL cutoff e = true := by
        rcases List.mem_append.mp he2 with h | h
        · exact Or.inl (List.of_mem_filter h)
        · exact Or.inr (List.of_mem_filter h)
      have hin : e ∈ entries := by
        rcases List.mem_append.mp he2 with h | h
        · exact List.mem_of_mem_filter h
        · exact List.mem_of_mem_filter h
      refine ⟨hin, ?_⟩
      rcases hvis with h | h <;>
      · simp only [scanVisible, Bool.and_eq_true, decide_eq_true_eq] at h
        exact h.1.2
    have hbuild := buildLoop_fitPrefix entries msgCap hdist hwfv hwft
      ((scanSeq entries (rangeStart + (rangeStop - rangeStart) / replicaCount * ridx)
          rangeStop TSB_LOCAL_REMOVAL cutoff ++
        scanSeq entries rangeStart
          ((rangeStart + (rangeStop - rangeStart) / replicaCount * ridx +
            (2 ^ 64 - 1)) % 2 ^ 64) TSB_LOCAL_REMOVAL cutoff).filter
        (wantedEntry mayHave tombCut)) 0 hCmem
    rw [show ((msgCap : Int) - (0 : Nat)) = (msgCap : Int) by simp] at hbuild
    rw [hbuild]
    cases hC : ((scanSeq entries
        (rangeStart + (rangeStop - rangeStart) / replicaCount * ridx)
        rangeStop TSB_LOCAL_REMOVAL cutoff ++
       scanSeq entries rangeStart
        ((rangeStart + (rangeStop - rangeStart) / replicaCount * ridx +
          (2 ^ 64 - 1)) % 2 ^ 64) TSB_LOCAL_REMOVAL cutoff).filter
        (wantedEntry mayHave tombCut)) with
    | nil =>
      rw [show overPrefix (msgCap : Int) [] = [] from rfl]
      rw [show fitPrefix msgCap 0 [] = [] from rfl]
      rfl
    | cons c cs =>
      rw [if_neg (by
        intro hmape
        exact overPrefix_cons_ne_nil (msgCap : Int) c cs
          (List.map_eq_nil_iff.mp hmape))]
      cases hF : fitPrefix msgCap 0 (c :: cs) with
      | nil =>
        rw [List.map_nil, if_pos rfl]
      | cons f fs =>
        rw [List.map_cons]
        rw [if_neg (by simp)]

def pullEntriesW : List GEntry :=
  [⟨10, 1, 0, 0, 76800, 3, [1, 2, 3]⟩,
   ⟨20, 2, 0, 0, 102528, 0, []⟩,
   ⟨30, 3, 0, 0, 128000, 2, [4, 5]⟩,
   ⟨40, 4, 0, 0, 153602, 1, [6]⟩]

/-- Witness for C8: the correspondence holds at a concrete index (four
entries, one of them a tombstone), with an empty bloom filter, message
cap 1000, replica 1 of 2, over the full key range. -/
theorem in_pull_replication_selects_witness :
    distinctKeys pullEntriesW ∧
    (∀ e ∈ pullEntriesW, e.value.length = e.length) ∧
    (∀ e ∈ pullEntriesW, e.tsb &&& TSB_DELETION ≠ 0 → e.length = 0) ∧
    inPullReplication pullEntriesW (fun _ _ _ _ _ => false) 1000 0 2 1
      (2 ^ 64 - 1) 0 (2 ^ 64 - 1) =
      pullResponseSpec pullEntriesW (fun _ _ _ _ _ => false) 1000 0 2 1
        (2 ^ 64 - 1) 0 (2 ^ 64 - 1) :=
  ⟨by decide, by decide, by decide,
   in_pull_replication_selects pullEntriesW (fun _ _ _ _ _ => false) 1000 0 2 1
     (2 ^ 64 - 1) 0 (2 ^ 64 - 1) (by decide) (by decide) (by decide)⟩

end ValueStore
